import Mathlib

/-!
Verification development for the least-squares regression engine in
`src/linalg/lstsq.rs` (and its callers in `src/num/linear_regression.rs`)
of the `polars_ds_extension` repository.

Modelling conventions:

* `f64` is embedded as `F64`: either a finite rational (`F64.fin q`),
  `F64.nan`, or a signed infinity (`F64.inf` / `F64.ninf`).  Finite
  arithmetic is exact rational arithmetic (rounding, overflow to
  infinity and the sign of zero are idealized away); the special values
  propagate following IEEE-754 rules, which is what the source relies
  on (`is_nan`, NaN-skipping, `recip`, comparisons that are false on NaN).
* faer's dynamically sized `Mat<f64>` is embedded as `Mat`: a pair of
  dimensions together with a total entry function that is normalized to
  `0` outside the stored region.
* Calls into the faer library itself (column-pivoted QR solve/inverse and
  thin SVD, plus `f64::sqrt`) are external to this repository; they are
  modelled as an explicit environment `FaerEnv` of black-box operators.
  `thin_svd` returns `Option` because the source matches on its
  `Result`; `todo!()` and `.unwrap()` panics are modelled as `Option.none`
  results of the surrounding function.
* The error enum `LinalgErrors` is declared in `src/linalg/mod.rs`,
  which is not part of the provided sources; its three variants used by
  `lstsq.rs` are reproduced here (`MatNotLearnedYet` is what the spec
  calls `ModelNotFit`).
-/

/-- Embedded `f64` value: finite rational, NaN, or a signed infinity. -/
inductive F64 where
  | fin : ℚ → F64
  | nan : F64
  | inf : F64
  | ninf : F64
deriving DecidableEq, Repr

namespace F64

/-- `faer_traits::math_utils::is_nan` for `f64`: true only on NaN
(infinities are NOT NaN). -/
def isNan : F64 → Bool
  | nan => true
  | _ => false

/-- IEEE addition on the embedded values (finite part exact). -/
def add : F64 → F64 → F64
  | nan, _ => nan
  | _, nan => nan
  | inf, ninf => nan
  | ninf, inf => nan
  | inf, _ => inf
  | _, inf => inf
  | ninf, _ => ninf
  | _, ninf => ninf
  | fin a, fin b => fin (a + b)

/-- IEEE negation. -/
def neg : F64 → F64
  | nan => nan
  | inf => ninf
  | ninf => inf
  | fin a => fin (-a)

/-- IEEE multiplication; `0 × ∞ = NaN`. -/
def mul : F64 → F64 → F64
  | nan, _ => nan
  | _, nan => nan
  | inf, inf => inf
  | inf, ninf => ninf
  | ninf, inf => ninf
  | ninf, ninf => inf
  | inf, fin b => if 0 < b then inf else if b < 0 then ninf else nan
  | ninf, fin b => if 0 < b then ninf else if b < 0 then inf else nan
  | fin a, inf => if 0 < a then inf else if a < 0 then ninf else nan
  | fin a, ninf => if 0 < a then ninf else if a < 0 then inf else nan
  | fin a, fin b => fin (a * b)

instance : Add F64 := ⟨F64.add⟩
instance : Neg F64 := ⟨F64.neg⟩
instance : Mul F64 := ⟨F64.mul⟩

/-- IEEE subtraction. -/
def sub (a b : F64) : F64 := a + (-b)

instance : Sub F64 := ⟨F64.sub⟩

/-- `f64::recip` (the sign of zero is idealized to `+0`, so
`(0 : F64).recip = inf`). -/
def recip : F64 → F64
  | nan => nan
  | inf => fin 0
  | ninf => fin 0
  | fin a => if a = 0 then inf else fin a⁻¹

/-- IEEE division (signed zeros idealized to `+0`). -/
def div : F64 → F64 → F64
  | nan, _ => nan
  | _, nan => nan
  | inf, inf => nan
  | inf, ninf => nan
  | ninf, inf => nan
  | ninf, ninf => nan
  | inf, fin b => if b < 0 then ninf else inf
  | ninf, fin b => if b < 0 then inf else ninf
  | fin _, inf => fin 0
  | fin _, ninf => fin 0
  | fin a, fin b =>
      if b = 0 then (if a = 0 then nan else if a < 0 then ninf else inf)
      else fin (a / b)

instance : Div F64 := ⟨F64.div⟩

/-- IEEE `<` comparison: any comparison involving NaN is false. -/
def lt : F64 → F64 → Bool
  | nan, _ => false
  | _, nan => false
  | ninf, ninf => false
  | ninf, _ => true
  | _, ninf => false
  | inf, _ => false
  | fin _, inf => true
  | fin a, fin b => decide (a < b)

/-- IEEE `<=` comparison: any comparison involving NaN is false. -/
def le : F64 → F64 → Bool
  | nan, _ => false
  | _, nan => false
  | ninf, _ => true
  | _, ninf => false
  | _, inf => true
  | inf, fin _ => false
  | fin a, fin b => decide (a ≤ b)

/-- `f64::abs`. -/
def abs : F64 → F64
  | nan => nan
  | inf => inf
  | ninf => inf
  | fin a => fin |a|

/-- `f64::signum`: `NaN` for NaN, otherwise `±1` (the sign of zero is
idealized to `+0`, giving `signum 0 = 1` as for Rust's `+0.0`). -/
def signum : F64 → F64
  | nan => nan
  | inf => fin 1
  | ninf => fin (-1)
  | fin a => if a < 0 then fin (-1) else fin 1

/-- `f64::max`: ignores a NaN argument, as in Rust. -/
def max : F64 → F64 → F64
  | nan, b => b
  | a, nan => a
  | a, b => if le a b then b else a

end F64

/-- `f64::EPSILON` = 2⁻⁵². -/
def f64Epsilon : F64 := .fin (1 / 2 ^ 52)

/-- `f64::MIN`, the least finite `f64` value, used as the fold seed when
the source computes a maximum singular value. -/
def f64Min : F64 := .fin (-(2 ^ 1024 - 2 ^ 971))

/-- Sum `f k * g k` for `k` below the bound: the dot products performed
by faer's matrix multiplication, embedded as a structural recursion. -/
def dotF (f g : ℕ → F64) : ℕ → F64
  | 0 => .fin 0
  | n + 1 => dotF f g n + f n * g n

/-- Sum `f k` for `k` below the bound. -/
def sumF (f : ℕ → F64) : ℕ → F64
  | 0 => .fin 0
  | n + 1 => sumF f n + f n

/-- Embedded `faer::Mat<f64>`: dynamic dimensions plus a total entry
function, normalized to `0` outside the stored region. -/
structure Mat where
  nrows : ℕ
  ncols : ℕ
  entry : ℕ → ℕ → F64

namespace Mat

/-- Build an `r × c` matrix from an entry function (normalizing entries
outside the stored region to `0`). -/
def of (r c : ℕ) (f : ℕ → ℕ → F64) : Mat :=
  ⟨r, c, fun i j => if i < r ∧ j < c then f i j else .fin 0⟩

/-- `Mat::new()`: the empty `0 × 0` matrix (also what
`Mat::with_capacity(0, 0)` yields as a value). -/
def empty : Mat := Mat.of 0 0 fun _ _ => .fin 0

/-- `Mat::zeros(r, c)`. -/
def zeros (r c : ℕ) : Mat := Mat.of r c fun _ _ => .fin 0

/-- `Mat::full(r, c, v)`. -/
def full (r c : ℕ) (v : F64) : Mat := Mat.of r c fun _ _ => v

/-- `.transpose()`. -/
def transpose (A : Mat) : Mat := Mat.of A.ncols A.nrows fun i j => A.entry j i

/-- Matrix product (faer `*`), summing over the left operand's column
count. -/
def mul (A B : Mat) : Mat :=
  Mat.of A.nrows B.ncols fun i j => dotF (fun k => A.entry i k) (fun k => B.entry k j) A.ncols

/-- Entrywise difference (faer `-`); dimensions taken from the left
operand. -/
def sub (A B : Mat) : Mat :=
  Mat.of A.nrows A.ncols fun i j => A.entry i j - B.entry i j

/-- `.sum()`: sum of all entries. -/
def sum (A : Mat) : F64 :=
  sumF (fun i => sumF (fun j => A.entry i j) A.ncols) A.nrows

/-- Write one (in-bounds) entry, as the source's indexed assignments do. -/
def set (A : Mat) (i j : ℕ) (v : F64) : Mat :=
  Mat.of A.nrows A.ncols fun a b => if a = i ∧ b = j then v else A.entry a b

/-- Row `i` as a `1 × ncols` matrix (`x.get(i..i+1, ..)`). -/
def row (A : Mat) (i : ℕ) : Mat := Mat.of 1 A.ncols fun _ j => A.entry i j

/-- The top `n` rows (`x.get(..n, ..)`). -/
def topRows (A : Mat) (n : ℕ) : Mat := Mat.of n A.ncols fun i j => A.entry i j

/-- `has_nan` from `lstsq.rs`: does any entry of the matrix hold NaN?
(The column-major iteration order of the source is immaterial.) -/
def hasNan (A : Mat) : Bool :=
  (List.range A.nrows).any fun i => (List.range A.ncols).any fun j => (A.entry i j).isNan

/-- Append a column of ones on the right (`faer::concat![[X, ones]]`). -/
def appendOnes (A : Mat) : Mat :=
  Mat.of A.nrows (A.ncols + 1) fun i j => if j < A.ncols then A.entry i j else .fin 1

end Mat

/-- The error enum from `src/linalg/mod.rs` (module not in the provided
sources; these are exactly the variants constructed by `lstsq.rs`).
`MatNotLearnedYet` is the spec's `ModelNotFit`. -/
inductive LinalgErrors where
  | DimensionMismatch
  | NotEnoughData
  | MatNotLearnedYet
deriving DecidableEq, Repr

/-- `LRSolverMethods` from `lstsq.rs`. -/
inductive LRSolverMethods where
  | SVD
  | Choleskey
  | QR
deriving DecidableEq, Repr

/-- `impl From<&str> for LRSolverMethods`: unrecognized strings silently
fall back to QR. -/
def LRSolverMethods.fromStr (s : String) : LRSolverMethods :=
  if s = "qr" then .QR
  else if s = "svd" then .SVD
  else if s = "choleskey" then .Choleskey
  else .QR

/-- The data faer's `thin_svd()` factorization object exposes to this
code: `U`, `S` (as a column of values), `V`, and its `solve`. -/
structure SvdFactorization where
  solveFn : Mat → Mat
  U : Mat
  S : Mat
  V : Mat

/-- Black-box model of the external faer routines (and `f64::sqrt`) used
by `lstsq.rs`.  `thinSvd` returning `none` models `thin_svd()`
returning `Err`. -/
structure FaerEnv where
  thinSvd : Mat → Option SvdFactorization
  qrSolve : Mat → Mat → Mat
  qrInverse : Mat → Mat
  sqrtFn : F64 → F64

/-! ## The basic solver functions of `lstsq.rs` -/

/-- The in-place loop `for i in 0..n1 { xtx[(i,i)] += lambda }`: add
`lam` to the first `n1` diagonal entries. -/
def ridgeDiagAdd (A : Mat) (lam : F64) (n1 : ℕ) : Mat :=
  Mat.of A.nrows A.ncols fun i j => if i = j ∧ i < n1 then A.entry i j + lam else A.entry i j

/-- The normal-equations matrix built by `faer_solve_lstsq`:
`XᵗX`, with `lambda` added to the first `ncols - has_bias` diagonal
entries when `lambda >= 0` (the source guards with `>=`, and uses
`abs_diff`, i.e. `Nat.dist`). -/
def lstsqXtX (x : Mat) (lam : F64) (has_bias : Bool) : Mat :=
  let n1 := Nat.dist x.ncols (bif has_bias then 1 else 0)
  let xtx := (x.transpose).mul x
  if F64.le (.fin 0) lam ∧ 1 ≤ n1 then ridgeDiagAdd xtx lam n1 else xtx

/-- The normal-equations matrix built by `faer_qr_lstsq_with_inv`
(identical but guarded by `lambda > 0`). -/
def invXtX (x : Mat) (lam : F64) (has_bias : Bool) : Mat :=
  let n1 := Nat.dist x.ncols (bif has_bias then 1 else 0)
  let xtx := (x.transpose).mul x
  if F64.lt (.fin 0) lam ∧ 1 ≤ n1 then ridgeDiagAdd xtx lam n1 else xtx

/-- `faer_solve_lstsq`: ridge-augmented normal equations solved with the
chosen decomposition.  The SVD branch matches on `thin_svd()` and falls
back to column-pivoted QR on failure; the Choleskey branch is
`todo!()`, modelled as `none`. -/
def faer_solve_lstsq (env : FaerEnv) (x y : Mat) (lam : F64) (has_bias : Bool)
    (how : LRSolverMethods) : Option Mat :=
  let xtx := lstsqXtX x lam has_bias
  match how with
  | .SVD =>
      match env.thinSvd xtx with
      | some svd => some (svd.solveFn ((x.transpose).mul y))
      | none => some (env.qrSolve xtx ((x.transpose).mul y))
  | .QR => some (env.qrSolve xtx ((x.transpose).mul y))
  | .Choleskey => none

/-- `faer_qr_lstsq_with_inv`: returns `(inverse of XᵗX(+λ), weights)`
from one column-pivoted QR factorization. -/
def faer_qr_lstsq_with_inv (env : FaerEnv) (x y : Mat) (lam : F64) (has_bias : Bool) :
    Mat × Mat :=
  let xtx := invXtX x lam has_bias
  (env.qrInverse xtx, env.qrSolve xtx ((x.transpose).mul y))

/-- `faer_solve_lstsq_rcond`: truncated-SVD least squares.  The source
calls `.thin_svd().unwrap()`: a factorization failure panics, modelled
as `none`. -/
def faer_solve_lstsq_rcond (env : FaerEnv) (x y : Mat) (rcond : F64) :
    Option (Mat × List F64) :=
  match env.thinSvd ((x.transpose).mul x) with
  | none => none
  | some svd =>
      let s := svd.S
      let singular_values := (List.range s.nrows).map fun i => env.sqrtFn (s.entry i 0)
      let n := singular_values.length
      let max_singular_value := singular_values.foldl F64.max f64Min
      let threshold := rcond * max_singular_value
      let s_inv := Mat.of n n fun i j =>
        if i = j then (if F64.le threshold (s.entry i 0) then (s.entry i 0).recip else .fin 0)
        else .fin 0
      let weights := ((((svd.V).mul s_inv).mul (svd.U).transpose).mul (x.transpose)).mul y
      some (weights, singular_values)

/-- `faer_solve_ridge_rcond`: ridge-augmented truncated-SVD least
squares; also calls `.thin_svd().unwrap()` (panic modelled as `none`).
The diagonal `lambda` add is unconditional here, over the first
`ncols - has_bias` entries. -/
def faer_solve_ridge_rcond (env : FaerEnv) (x y : Mat) (lam : F64) (has_bias : Bool)
    (rcond : F64) : Option (Mat × List F64) :=
  let n1 := Nat.dist x.ncols (bif has_bias then 1 else 0)
  let xtx_plus := ridgeDiagAdd ((x.transpose).mul x) lam n1
  match env.thinSvd xtx_plus with
  | none => none
  | some svd =>
      let s := svd.S
      let singular_values := (List.range s.nrows).map fun i => env.sqrtFn (s.entry i 0)
      let n := singular_values.length
      let max_singular_value := singular_values.foldl F64.max f64Min
      let threshold := rcond * max_singular_value
      let s_inv := Mat.of n n fun i j =>
        if i = j then (if F64.le threshold (s.entry i 0) then (s.entry i 0).recip else .fin 0)
        else .fin 0
      let weights := ((((svd.V).mul s_inv).mul (svd.U).transpose).mul (x.transpose)).mul y
      some (weights, singular_values)

/-- `soft_threshold_l1`: `z.signum() * (z.abs() - lambda).max(0.)`. -/
def soft_threshold_l1 (z lam : F64) : F64 :=
  z.signum * F64.max (z.abs - lam) (.fin 0)

/-- One coordinate update of the descent loop body (`for j in 0..n1`):
temporarily zero `beta[j]`, compute the partial residual correlation
against row `j` of `XᵗX`, soft-threshold, divide by the augmented
column norm, write back, and track the largest absolute change. -/
def cdCoordStep (xtx xty : Mat) (norms : ℕ → F64) (lam1 : F64)
    (st : Mat × F64) (j : ℕ) : Mat × F64 :=
  let beta := st.1
  let before := beta.entry j 0
  let beta0 := beta.set j 0 (.fin 0)
  let main_update := xty.entry j 0 - ((xtx.row j).mul beta0).entry 0 0
  let after := soft_threshold_l1 main_update lam1 / norms j
  (beta0.set j 0 after, F64.max ((after - before).abs) st.2)

/-- One full sweep of the coordinate-descent outer loop: cyclic pass
over the `n1` true-feature coordinates, then (when a bias column is
present) the closed-form bias update `mean(y - X_features·beta)`. -/
def cdSweep (x y xtx xty : Mat) (norms : ℕ → F64) (lam1 : F64) (has_bias : Bool)
    (n1 : ℕ) (m : F64) (beta : Mat) : Mat × F64 :=
  let st := (List.range n1).foldl (cdCoordStep xtx xty norms lam1) (beta, .fin 0)
  if has_bias then
    let xx := Mat.of x.nrows n1 fun i j => x.entry i j
    let bb := (st.1).topRows n1
    let ss := (y.sub (xx.mul bb)).sum / m
    ((st.1).set n1 0 ss, st.2)
  else st

/-- The `for _ in 0..max_iter` loop: sweep, then stop as soon as the
maximal coordinate change falls below `tol`; otherwise continue with
the remaining iteration budget, returning the current `beta` when the
budget is exhausted. -/
def cdLoop (x y xtx xty : Mat) (norms : ℕ → F64) (lam1 : F64) (has_bias : Bool)
    (n1 : ℕ) (m tol : F64) : ℕ → Mat → Mat
  | 0, beta => beta
  | fuel + 1, beta =>
      let st := cdSweep x y xtx xty norms lam1 has_bias n1 m beta
      if F64.lt st.2 tol then st.1
      else cdLoop x y xtx xty norms lam1 has_bias n1 m tol fuel st.1

/-- `faer_coordinate_descent`: Lasso / Elastic-Net coefficients via
cyclic coordinate descent, starting from `beta = 0`.  (The source's
non-convergence `println!` diagnostic has no bearing on the returned
value and is not modelled.) -/
def faer_coordinate_descent (x y : Mat) (l1_reg l2_reg : F64) (has_bias : Bool)
    (tol : F64) (max_iter : ℕ) : Mat :=
  let m : F64 := .fin (x.nrows : ℚ)
  let ncols := x.ncols
  let n1 := Nat.dist ncols (bif has_bias then 1 else 0)
  let lam1 := m * l1_reg
  let norms : ℕ → F64 := fun j =>
    dotF (fun i => x.entry i j) (fun i => x.entry i j) x.nrows + m * l2_reg
  let xty := (x.transpose).mul y
  let xtx := (x.transpose).mul x
  cdLoop x y xtx xty norms lam1 has_bias n1 m tol max_iter (Mat.zeros ncols 1)

/-- `woodbury_step`: rank-1 update of the inverse information matrix and
the weights.  Every faer operation's shape assertion is modelled: a
failed assertion is a panic, i.e. `none`.  In particular the weights
accumulation `matmul(weights, Accum::Add, y_diff, u, z, par)` passes
the `1 × 1` difference `y_diff` as the `lhs` of a product whose `dst`
is the weight column, so its asserts `dst.nrows == lhs.nrows` and
`lhs.ncols == rhs.nrows` only hold when the weight vector has exactly
one row; faer performs no scalar broadcast.  On conforming shapes the
two `matmul` calls accumulate `inverse += (-z)·(u·uᵗ)` and
`weights += z·(y_diff·u)` entrywise. -/
def woodbury_step (inverse weights new_x new_y : Mat) (c : F64) : Option (Mat × Mat) :=
  -- `&inverse * new_x.transpose()`: `Mul` asserts `lhs.ncols == rhs.nrows`.
  if inverse.ncols ≠ new_x.ncols then none
  else
    let u := inverse.mul (new_x.transpose)
    -- `(new_x * &u)`: `Mul` asserts `lhs.ncols == rhs.nrows`; then
    -- `.get(0, 0)` asserts the product is non-empty.
    if new_x.ncols ≠ u.nrows then none
    else if new_x.nrows = 0 then none
    else
      let z := (c + (new_x.mul u).entry 0 0).recip
      -- `matmul(inverse, Add, u, uᵗ, -z)`: asserts `dst.nrows == lhs.nrows`,
      -- `dst.ncols == rhs.ncols` and `lhs.ncols == rhs.nrows`.
      if inverse.nrows ≠ u.nrows ∨ inverse.ncols ≠ u.nrows then none
      else
        let inv2 := Mat.of inverse.nrows inverse.ncols fun i j =>
          inverse.entry i j + (-z) * (u.mul (u.transpose)).entry i j
        -- `new_x * &weights`: `Mul` asserts `lhs.ncols == rhs.nrows`.
        if new_x.ncols ≠ weights.nrows then none
        -- `new_y - (...)`: `Sub` asserts equal shapes.
        else if new_y.nrows ≠ new_x.nrows ∨ new_y.ncols ≠ weights.ncols then none
        else
          let y_diff := new_y.sub (new_x.mul weights)
          -- `matmul(weights, Add, y_diff, u, z)`: asserts
          -- `dst.nrows == lhs.nrows`, `dst.ncols == rhs.ncols`,
          -- `lhs.ncols == rhs.nrows`.
          if weights.nrows ≠ y_diff.nrows ∨ weights.ncols ≠ u.ncols
              ∨ y_diff.ncols ≠ u.nrows then none
          else
            let w2 := Mat.of weights.nrows weights.ncols fun i j =>
              weights.entry i j + z * (y_diff.mul u).entry i j
            some (inv2, w2)

/-! ## The model structs -/

/-- `OnlineLR`: online linear regression state. -/
structure OnlineLR where
  lambda : F64
  fit_bias : Bool
  bias : F64
  coefficients : Mat
  inv : Mat

/-- `OnlineLR::new`. -/
def OnlineLR.new (lam : F64) (fb : Bool) : OnlineLR :=
  ⟨lam, fb, .fin 0, Mat.empty, Mat.empty⟩

/-- `is_fit` from the `LinearRegression` trait: the coefficient
container is non-empty (shape not `(0, 0)`). -/
def isFitShape (coefficients : Mat) : Bool :=
  !(coefficients.nrows == 0 && coefficients.ncols == 0)

def OnlineLR.is_fit (s : OnlineLR) : Bool := isFitShape s.coefficients

/-- `OnlineLR::update_unchecked`: apply one Woodbury step; when a bias
is tracked the incoming row is extended with a `1` and the bias is made
the last slot of a temporary weight vector, then split off again.
`none` is the Woodbury step's shape-assert panic propagating. -/
def OnlineLR.update_unchecked (s : OnlineLR) (new_x new_y : Mat) (c : F64) :
    Option OnlineLR :=
  if s.fit_bias then
    let nfeats := s.coefficients.nrows
    let new_new_x := new_x.appendOnes
    let temp_weights := Mat.of (nfeats + 1) 1 fun i _ =>
      if i < nfeats then s.coefficients.entry i 0 else s.bias
    (woodbury_step s.inv temp_weights new_new_x new_y c).map fun p =>
      { s with inv := p.1, coefficients := (p.2).topRows nfeats, bias := (p.2).entry nfeats 0 }
  else
    (woodbury_step s.inv s.coefficients new_x new_y c).map fun p =>
      { s with inv := p.1, coefficients := p.2 }

/-- `OnlineLR::update`: the NaN-checked entry point.  Note: the only
guard is the NaN scan — there is no is-fit check.  A skipped (NaN) row
returns the state unchanged; `none` is a panic inside the unchecked
update. -/
def OnlineLR.update (s : OnlineLR) (new_x new_y : Mat) (c : F64) : Option OnlineLR :=
  if !(new_x.hasNan || new_y.hasNan) then s.update_unchecked new_x new_y c else some s

/-- `OnlineLR::fit_unchecked` (the trait's `fit_unchecked` impl): both
branches call `faer_qr_lstsq_with_inv` with `has_bias = true`, as in
the source. -/
def OnlineLR.fit_unchecked (env : FaerEnv) (s : OnlineLR) (X y : Mat) : OnlineLR :=
  if s.fit_bias then
    let actual_features := X.ncols
    let p := faer_qr_lstsq_with_inv env (X.appendOnes) y s.lambda true
    { s with inv := p.1, coefficients := (p.2).topRows actual_features,
             bias := (p.2).entry actual_features 0 }
  else
    let p := faer_qr_lstsq_with_inv env X y s.lambda true
    { s with inv := p.1, coefficients := p.2 }

/-- `LR`: batch linear / ridge regression state. -/
structure LR where
  solver : LRSolverMethods
  lambda : F64
  coefficients : Mat
  fit_bias : Bool
  bias : F64

/-- `LR::new` (solver parsed from a string, silently defaulting to QR). -/
def LR.new (solver : String) (lam : F64) (fb : Bool) : LR :=
  ⟨.fromStr solver, lam, Mat.empty, fb, .fin 0⟩

def LR.is_fit (s : LR) : Bool := isFitShape s.coefficients

/-- `LR::set_coeffs_and_bias`. -/
def LR.set_coeffs_and_bias (s : LR) (coeffs : List F64) (b : F64) : LR :=
  { s with coefficients := Mat.of coeffs.length 1 fun i _ => coeffs.getD i (.fin 0),
           bias := b,
           fit_bias := F64.lt f64Epsilon b.abs }

/-- The `LinearRegression` trait's default `predict`, in terms of the
trait getters: dimension check first, then the is-fit check, then
`X·beta` with the bias broadcast-added when tracked and above epsilon. -/
def predictLR (coefficients : Mat) (bias : F64) (fit_bias : Bool) (X : Mat) :
    Except LinalgErrors Mat :=
  if X.ncols ≠ coefficients.nrows then .error .DimensionMismatch
  else if !(isFitShape coefficients) then .error .MatNotLearnedYet
  else
    let result := X.mul coefficients
    if fit_bias ∧ F64.lt f64Epsilon bias.abs then
      .ok (Mat.of result.nrows result.ncols fun i j =>
        if j = 0 then result.entry i j + bias else result.entry i j)
    else .ok result

def LR.predict (s : LR) (X : Mat) : Except LinalgErrors Mat :=
  predictLR s.coefficients s.bias s.fit_bias X

/-- `LR`'s `fit_unchecked`: solve (appending a ones column when a bias
is fit) and peel the last coefficient off into the bias scalar.
`none` only when the underlying solve is the `todo!()` Choleskey
branch. -/
def LR.fit_unchecked (env : FaerEnv) (s : LR) (X y : Mat) : Option LR :=
  if s.fit_bias then
    (faer_solve_lstsq env (X.appendOnes) y s.lambda true s.solver).map fun all =>
      let n := all.nrows
      { s with coefficients := Mat.of (n - 1) 1 fun i _ => all.entry i 0,
               bias := all.entry (n - 1) 0 }
  else
    (faer_solve_lstsq env X y s.lambda false s.solver).map fun all =>
      { s with coefficients := all }

/-- The `LinearRegression` trait's default `fit` (used by `LR`):
dimension and data-sufficiency checks, then `fit_unchecked`. -/
def LR.fit (env : FaerEnv) (s : LR) (X y : Mat) : Option (Except LinalgErrors LR) :=
  if X.nrows ≠ y.nrows then some (.error .DimensionMismatch)
  else if X.nrows < X.ncols ∨ X.nrows = 0 ∨ y.nrows = 0 then some (.error .NotEnoughData)
  else (LR.fit_unchecked env s X y).map .ok

/-- `ElasticNet`: L1/L2-regularized regression state. -/
structure ElasticNet where
  l1_reg : F64
  l2_reg : F64
  coefficients : Mat
  fit_bias : Bool
  bias : F64
  tol : F64
  max_iter : ℕ

/-- `ElasticNet::new`. -/
def ElasticNet.new (l1 l2 : F64) (fb : Bool) (tol : F64) (mi : ℕ) : ElasticNet :=
  ⟨l1, l2, Mat.empty, fb, .fin 0, tol, mi⟩

def ElasticNet.is_fit (s : ElasticNet) : Bool := isFitShape s.coefficients

/-- `ElasticNet::set_coeffs_and_bias`. -/
def ElasticNet.set_coeffs_and_bias (s : ElasticNet) (coeffs : List F64) (b : F64) :
    ElasticNet :=
  { s with coefficients := Mat.of coeffs.length 1 fun i _ => coeffs.getD i (.fin 0),
           bias := b,
           fit_bias := F64.lt f64Epsilon b.abs }

/-- `ElasticNet`'s `fit_unchecked`: coordinate descent, with the same
bias-peeling convention. -/
def ElasticNet.fit_unchecked (s : ElasticNet) (X y : Mat) : ElasticNet :=
  let all :=
    if s.fit_bias then
      faer_coordinate_descent (X.appendOnes) y s.l1_reg s.l2_reg s.fit_bias s.tol s.max_iter
    else
      faer_coordinate_descent X y s.l1_reg s.l2_reg s.fit_bias s.tol s.max_iter
  if s.fit_bias then
    let n := all.nrows
    { s with coefficients := Mat.of (n - 1) 1 fun i _ => all.entry i 0,
             bias := all.entry (n - 1) 0 }
  else { s with coefficients := all }

/-- `ElasticNet::fit`: overrides the trait default — `nrows < ncols` is
allowed, only the dimension and zero-row checks remain. -/
def ElasticNet.fit (s : ElasticNet) (X y : Mat) : Except LinalgErrors ElasticNet :=
  if X.nrows ≠ y.nrows then .error .DimensionMismatch
  else if X.nrows = 0 ∨ y.nrows = 0 then .error .NotEnoughData
  else .ok (s.fit_unchecked X y)

/-! ## The windowed drivers -/

/-- The per-row loop of `faer_recursive_lstsq`: one NaN-checked "add"
update per index, emitting the coefficient snapshot after each.  A
panic inside an update (`none`) aborts the whole run. -/
def recursiveSteps (x y : Mat) : List ℕ → OnlineLR → Option (List Mat)
  | [], _ => some []
  | j :: rest, s =>
      (s.update (x.row j) (y.row j) (.fin 1)).bind fun s1 =>
        (recursiveSteps x y rest s1).map fun l => s1.coefficients :: l

/-- `faer_recursive_lstsq`: growing-window driver.  `none` is a panic
inside one of the updates aborting the run. -/
def faer_recursive_lstsq (env : FaerEnv) (x y : Mat) (n : ℕ) (lam : F64) :
    Option (List Mat) :=
  let online_lr := OnlineLR.fit_unchecked env (OnlineLR.new lam false) (x.topRows n) (y.topRows n)
  (recursiveSteps x y (List.range' n (x.nrows - n)) online_lr).map fun l =>
    online_lr.coefficients :: l

/-- The per-row loop of `faer_rolling_lstsq`: a "remove" update on the
leaving row then an "add" update on the entering row.  A panic inside
an update (`none`) aborts the whole run. -/
def rollingSteps (x y : Mat) (n : ℕ) : List ℕ → OnlineLR → Option (List Mat)
  | [], _ => some []
  | j :: rest, s =>
      (s.update (x.row (j - n)) (y.row (j - n)) (.fin (-1))).bind fun s1 =>
        (s1.update (x.row j) (y.row j) (.fin 1)).bind fun s2 =>
          (rollingSteps x y n rest s2).map fun l => s2.coefficients :: l

/-- `faer_rolling_lstsq`: fixed-window driver.  `none` is a panic
inside one of the updates aborting the run. -/
def faer_rolling_lstsq (env : FaerEnv) (x y : Mat) (n : ℕ) (lam : F64) :
    Option (List Mat) :=
  let online_lr := OnlineLR.fit_unchecked env (OnlineLR.new lam false) (x.topRows n) (y.topRows n)
  (rollingSteps x y n (List.range' n (x.nrows - n)) online_lr).map fun l =>
    online_lr.coefficients :: l

/-- Is row `i` of `(x, y)` free of NaN?  (The source's per-row
`iter().any(is_nan)` scans.) -/
def rowValid (x y : Mat) (i : ℕ) : Bool :=
  !((x.row i).hasNan || (y.row i).hasNan)

/-- The bootstrap `while` loop of `faer_rolling_skipping_lstsq`: scan
each window; emit a `0 × 0` placeholder and slide while fewer than `m`
valid rows; on the first window with `≥ m` valid rows, fit from scratch
on exactly the valid rows and stop.  `fuel` only bounds the recursion
and is chosen at the call site to exceed the iteration count. -/
def skipInit (env : FaerEnv) (x y : Mat) (n m : ℕ) (lam : F64) :
    ℕ → ℕ → List Mat × Option (OnlineLR × ℕ × ℕ)
  | 0, _ => ([], none)
  | fuel + 1, left =>
      let right := left + n
      if right ≤ x.nrows then
        let valid := (List.range' left n).filter (rowValid x y)
        let cnt := valid.length
        if m ≤ cnt then
          let x0 := Mat.of cnt x.ncols fun i j => x.entry (valid.getD i 0) j
          let y0 := Mat.of cnt 1 fun i _ => y.entry (valid.getD i 0) 0
          let lr := OnlineLR.fit_unchecked env (OnlineLR.new lam false) x0 y0
          ([lr.coefficients], some (lr, cnt, right))
        else
          let rest := skipInit env x y n m lam fuel (left + 1)
          (Mat.empty :: rest.1, rest.2)
      else ([], none)

/-- The post-bootstrap loop of `faer_rolling_skipping_lstsq`:
conditional unchecked remove/add updates with a running valid count,
emitting a `0 × 0` placeholder whenever the count is below `m`.  A
panic inside an unchecked update (`none`) aborts the whole run. -/
def skipSteps (env : FaerEnv) (x y : Mat) (n m : ℕ) :
    List ℕ → OnlineLR → ℕ → Option (List Mat)
  | [], _, _ => some []
  | j :: rest, s, cnt =>
      (if rowValid x y (j - n) then
          (OnlineLR.update_unchecked s (x.row (j - n)) (y.row (j - n)) (.fin (-1))).map
            fun s1 => (s1, cnt - 1)
        else some (s, cnt)).bind fun p1 =>
        (if rowValid x y j then
            (OnlineLR.update_unchecked p1.1 (x.row j) (y.row j) (.fin 1)).map
              fun s2 => (s2, p1.2 + 1)
          else some p1).bind fun p2 =>
          (skipSteps env x y n m rest p2.1 p2.2).map fun l =>
            (if m ≤ p2.2 then (p2.1).coefficients else Mat.empty) :: l

/-- `faer_rolling_skipping_lstsq`: fixed-window driver with
null-skipping and minimum valid count `m`.  `none` is a panic inside a
post-bootstrap update aborting the run. -/
def faer_rolling_skipping_lstsq (env : FaerEnv) (x y : Mat) (n m : ℕ) (lam : F64) :
    Option (List Mat) :=
  let xn := x.nrows
  let init := skipInit env x y n m lam (xn + 2) 0
  match init.2 with
  | none => some init.1
  | some st =>
      if xn ≤ st.2.2 then some init.1
      else (skipSteps env x y n m (List.range' st.2.2 (xn - st.2.2)) st.1 st.2.1).map
        fun l => init.1 ++ l

/-! ## Concrete sample values (used by witnesses and counterexamples) -/

/-- A `1 × 1` matrix holding `1`. -/
def X11 : Mat := Mat.of 1 1 fun _ _ => .fin 1

/-- A `1 × 1` matrix holding `1`. -/
def Y11 : Mat := Mat.of 1 1 fun _ _ => .fin 1

/-- A `1 × 1` matrix holding `5`. -/
def Y55 : Mat := Mat.of 1 1 fun _ _ => .fin 5

/-- A `3 × 1` matrix of ones. -/
def X31 : Mat := Mat.of 3 1 fun _ _ => .fin 1

/-- A `3 × 2` matrix of ones (two feature columns, all rows NaN-free). -/
def X32 : Mat := Mat.of 3 2 fun _ _ => .fin 1

/-- A `4 × 1` matrix of ones. -/
def Y41 : Mat := Mat.of 4 1 fun _ _ => .fin 1

/-- A `1 × 1` row holding `+∞` (non-finite but NOT NaN). -/
def XinfRow : Mat := Mat.of 1 1 fun _ _ => F64.inf

/-- A sample environment: the SVD always fails to factorize, the QR
black boxes return correctly shaped zero matrices. -/
def envZero : FaerEnv :=
  ⟨fun _ => none,
   fun A B => Mat.of A.ncols B.ncols fun _ _ => .fin 0,
   fun A => Mat.of A.ncols A.ncols fun _ _ => .fin 0,
   fun v => v⟩

/-- A freshly constructed (never fit) batch model. -/
def sampleLR : LR := LR.new "qr" (.fin 0) false

/-- A freshly constructed elastic-net model. -/
def sampleEN : ElasticNet := ElasticNet.new (.fin 0) (.fin 0) false (.fin (1 / 100000)) 2000

/-- A freshly constructed (never fit) online model. -/
def unfitOnline : OnlineLR := OnlineLR.new (.fin 0) false

/-- A small fitted online model without bias: one feature, inverse
information `[[1]]`, coefficient `0`. -/
def fittedOnline : OnlineLR :=
  ⟨.fin 0, false, .fin 0, Mat.of 1 1 fun _ _ => .fin 0, Mat.of 1 1 fun _ _ => .fin 1⟩

/-- A small fitted online model with bias: one feature (coefficient
`2`), bias `3`, identity `2 × 2` inverse. -/
def fittedOnlineBias : OnlineLR :=
  ⟨.fin 0, true, .fin 3, Mat.of 1 1 fun _ _ => .fin 2,
   Mat.of 2 2 fun i j => if i = j then .fin 1 else .fin 0⟩

/-! ### Specification-side coordinate descent (from the claim's text) -/

/-- Spec formula: `softThreshold(z, t) = sign(z)·max(|z| - t, 0)`. -/
def specSoftThreshold (z t : F64) : F64 :=
  z.signum * F64.max (z.abs - t) (.fin 0)

/-- Spec: one coordinate update.  With `beta_j` temporarily zeroed,
`r_j = (Xᵗy)_j - (XᵗX row j)·beta`, and the new coordinate is
`softThreshold(r_j, n·l1_reg) / (squared column norm_j + n·l2_reg)`;
the maximum absolute coordinate change is tracked alongside. -/
def specFeatureStep (x y : Mat) (l1 l2 : F64) (st : (ℕ → F64) × F64) (j : ℕ) :
    (ℕ → F64) × F64 :=
  let n : F64 := .fin (x.nrows : ℚ)
  let fz : ℕ → F64 := fun k => if k = j then .fin 0 else st.1 k
  let r : F64 :=
    dotF (fun i => x.entry i j) (fun i => y.entry i 0) x.nrows -
      dotF (fun k => dotF (fun i => x.entry i j) (fun i => x.entry i k) x.nrows) fz x.ncols
  let norm_j : F64 := dotF (fun i => x.entry i j) (fun i => x.entry i j) x.nrows + n * l2
  let after : F64 := specSoftThreshold r (n * l1) / norm_j
  (fun k => if k = j then after else st.1 k, F64.max ((after - st.1 j).abs) st.2)

/-- Spec: one full sweep — deterministic cyclic pass over the
true-feature coordinates only, then (when a bias is modeled) the bias
slot is set to `mean(y - X_features·beta_features)` without
soft-thresholding. -/
def specSweep (x y : Mat) (l1 l2 : F64) (hb : Bool) (f : ℕ → F64) : (ℕ → F64) × F64 :=
  let n1 := x.ncols - (bif hb then 1 else 0)
  let st := (List.range n1).foldl (specFeatureStep x y l1 l2) (f, .fin 0)
  if hb then
    let n : F64 := .fin (x.nrows : ℚ)
    let biasVal :=
      (sumF (fun i => y.entry i 0 - dotF (fun k => x.entry i k) (fun k => st.1 k) n1)
        x.nrows) / n
    (fun k => if k = n1 then biasVal else st.1 k, st.2)
  else st

/-- Spec: iterate sweeps, stopping when the maximum absolute coordinate
change of a sweep falls below `tol` or when the iteration budget is
exhausted (in which case the best-so-far vector is still returned,
non-fatally). -/
def specCD (x y : Mat) (l1 l2 : F64) (hb : Bool) (tol : F64) : ℕ → (ℕ → F64) → (ℕ → F64)
  | 0, f => f
  | fuel + 1, f =>
      let st := specSweep x y l1 l2 hb f
      if F64.lt st.2 tol then st.1 else specCD x y l1 l2 hb tol fuel st.1

/-- Spec: coordinate descent starts from `beta = 0`. -/
def specCoordinateDescent (x y : Mat) (l1 l2 : F64) (hb : Bool) (tol : F64)
    (max_iter : ℕ) : ℕ → F64 :=
  specCD x y l1 l2 hb tol max_iter (fun _ => .fin 0)

/-! ### Window vocabulary for the null-skipping driver -/

/-- The list of valid (NaN-free) row indices in the window
`[left, left+n)` — exactly the scan the bootstrap loop performs. -/
def windowValid (x y : Mat) (left n : ℕ) : List ℕ :=
  (List.range' left n).filter (rowValid x y)

/-- The number of NaN-free rows among the `len` rows starting at row
`s`: the driver's "valid-row count" for that window. -/
def validCount (x y : Mat) (s len : ℕ) : ℕ :=
  ((List.range' s len).filter (rowValid x y)).length

/-! ## Basic lemmas -/

theorem Mat.of_nrows (r c : ℕ) (f : ℕ → ℕ → F64) : (Mat.of r c f).nrows = r := rfl

theorem Mat.of_ncols (r c : ℕ) (f : ℕ → ℕ → F64) : (Mat.of r c f).ncols = c := rfl

theorem Mat.of_entry {r c : ℕ} (f : ℕ → ℕ → F64) {i j : ℕ} (hi : i < r) (hj : j < c) :
    (Mat.of r c f).entry i j = f i j := by
  simp [Mat.of, hi, hj]

theorem F64.zero_add (a : F64) : F64.fin 0 + a = a := by
  show F64.add (.fin 0) a = a
  cases a <;> simp [F64.add]

theorem F64.neg_mul_left (a b : F64) : -(a * b) = (-a) * b := by
  show F64.neg (F64.mul a b) = F64.mul (F64.neg a) b
  cases a <;> cases b <;>
    simp only [F64.mul, F64.neg] <;>
    (try split_ifs) <;>
    simp_all <;>
    linarith

theorem F64.sub_eq_add_neg (a b : F64) : a - b = a + (-b) := rfl

theorem dotF_congr {f g f' g' : ℕ → F64} :
    ∀ {n : ℕ}, (∀ k, k < n → f k = f' k) → (∀ k, k < n → g k = g' k) →
      dotF f g n = dotF f' g' n := by
  intro n
  induction n with
  | zero => intro _ _; rfl
  | succ n ih =>
      intro hf hg
      simp only [dotF]
      rw [ih (fun k hk => hf k (Nat.lt_succ_of_lt hk)) (fun k hk => hg k (Nat.lt_succ_of_lt hk)),
        hf n (Nat.lt_succ_self n), hg n (Nat.lt_succ_self n)]

theorem sumF_congr {f f' : ℕ → F64} :
    ∀ {n : ℕ}, (∀ k, k < n → f k = f' k) → sumF f n = sumF f' n := by
  intro n
  induction n with
  | zero => intro _; rfl
  | succ n ih =>
      intro hf
      simp only [sumF]
      rw [ih (fun k hk => hf k (Nat.lt_succ_of_lt hk)), hf n (Nat.lt_succ_self n)]

/-! ## Claim C9: `set_coeffs_and_bias` round trip -/

/-- C9: for every coefficient slice `c` and bias scalar `b`, calling
`set_coeffs_and_bias(c, b)` on an `LR` or an `ElasticNet` model and
then reading `coefficients()` / `bias()` returns exactly `c` (as a
`len(c) × 1` column) and exactly `b`; the setter sets `fit_bias` to
true exactly when `|b|` exceeds machine epsilon (`f64::EPSILON`). -/
theorem set_coeffs_and_bias_roundtrip (s : LR) (t : ElasticNet) (c : List F64) (b : F64) :
    ((s.set_coeffs_and_bias c b).coefficients.nrows = c.length
      ∧ (s.set_coeffs_and_bias c b).coefficients.ncols = 1
      ∧ (∀ i, i < c.length →
          (s.set_coeffs_and_bias c b).coefficients.entry i 0 = c.getD i (.fin 0))
      ∧ (s.set_coeffs_and_bias c b).bias = b
      ∧ ((s.set_coeffs_and_bias c b).fit_bias = true ↔ F64.lt f64Epsilon b.abs = true))
    ∧ ((t.set_coeffs_and_bias c b).coefficients.nrows = c.length
      ∧ (t.set_coeffs_and_bias c b).coefficients.ncols = 1
      ∧ (∀ i, i < c.length →
          (t.set_coeffs_and_bias c b).coefficients.entry i 0 = c.getD i (.fin 0))
      ∧ (t.set_coeffs_and_bias c b).bias = b
      ∧ ((t.set_coeffs_and_bias c b).fit_bias = true ↔ F64.lt f64Epsilon b.abs = true)) := by
  refine ⟨⟨rfl, rfl, ?_, rfl, Iff.rfl⟩, ⟨rfl, rfl, ?_, rfl, Iff.rfl⟩⟩ <;>
    · intro i hi
      exact Mat.of_entry _ hi Nat.one_pos

/-- Witness for C9 at concrete inputs. -/
theorem set_coeffs_and_bias_roundtrip_witness :
    (sampleLR.set_coeffs_and_bias [F64.fin 2] (F64.fin 3)).bias = F64.fin 3
    ∧ (sampleLR.set_coeffs_and_bias [F64.fin 2] (F64.fin 3)).coefficients.entry 0 0 = F64.fin 2 := by
  have h := set_coeffs_and_bias_roundtrip sampleLR sampleEN [F64.fin 2] (F64.fin 3)
  exact ⟨h.1.2.2.2.1, h.1.2.2.1 0 (by decide)⟩

/-! ## Claim C2: `predict` on an unfit model -/

/-- C2 counterexample: on an unfit model (`LR::new`, coefficients
`0 × 0`) and a `1 × 1` input `X`, `predict` returns
`DimensionMismatch` (the dimension check fires first, since
`X.ncols = 1 ≠ 0`), not the claimed `ModelNotFit`
(`MatNotLearnedYet`). -/
theorem predict_unfit_dimension_mismatch_first :
    sampleLR.is_fit = false
    ∧ sampleLR.predict X11 = .error .DimensionMismatch
    ∧ LinalgErrors.DimensionMismatch ≠ LinalgErrors.MatNotLearnedYet := by
  refine ⟨rfl, rfl, by decide⟩

/-- C2 (amended): for every unfit model (empty coefficient container)
and every input `X`, `predict` always returns an error — never an
empty or zero result: `MatNotLearnedYet` (the spec's `ModelNotFit`)
when `X` has zero columns, `DimensionMismatch` otherwise. -/
theorem predict_unfit_always_errors (coefficients : Mat) (bias : F64) (fb : Bool) (X : Mat)
    (h0 : coefficients.nrows = 0) (h0c : coefficients.ncols = 0) :
    predictLR coefficients bias fb X =
      .error (if X.ncols = 0 then LinalgErrors.MatNotLearnedYet else .DimensionMismatch) := by
  by_cases hx : X.ncols = 0
  · simp [predictLR, hx, h0, isFitShape, h0c]
  · simp [predictLR, hx, h0, isFitShape, h0c]

/-- Witness for C2's amended theorem at concrete inputs. -/
theorem predict_unfit_always_errors_witness :
    predictLR Mat.empty (.fin 0) false X11 = .error .DimensionMismatch := by
  have h := predict_unfit_always_errors Mat.empty (.fin 0) false X11 rfl rfl
  simpa using h

/-! ## Claim C3: `update` before any fit -/

/-- C3 (code bug evidence): `OnlineLR::update` has no is-fit guard at
all.  On a freshly constructed, never-fit model (`is_fit = false`) with
a NaN-free input row, `update` does not reject with `MatNotLearnedYet`
(its signature cannot return an error) — it falls straight through to
`update_unchecked`, running the Woodbury step against the empty
`0 × 0` inverse. -/
theorem online_update_before_fit_not_rejected :
    unfitOnline.is_fit = false
    ∧ unfitOnline.update X11 Y11 (.fin 1) = unfitOnline.update_unchecked X11 Y11 (.fin 1) := by
  exact ⟨rfl, rfl⟩

/-- The weights accumulation `matmul(weights, Accum::Add, y_diff, u, z)`
passes the `1 × 1` matrix `y_diff` as the product's `lhs` while the
destination is the weight column: faer's asserts
`dst.nrows == lhs.nrows` and `lhs.ncols == rhs.nrows` cannot both hold
once the weight vector has two or more rows, so for every single-row
target the step panics (`none`) before updating the weights. -/
theorem woodbury_step_shape_abort (inverse weights new_x new_y : Mat) (c : F64)
    (hy : new_y.nrows = 1) (hw : 2 ≤ weights.nrows) :
    woodbury_step inverse weights new_x new_y c = none := by
  unfold woodbury_step
  split_ifs with h1 h2 h3 h4
  · rfl
  · simp
  · simp
  · simp
  · have hvne : weights.nrows ≠ (new_y.sub (new_x.mul weights)).nrows := by
      show weights.nrows ≠ new_y.nrows
      omega
    simp [hvne]

/-- `OnlineLR::update_unchecked` inherits the abort: with a single-row
target, any model whose effective weight vector (coefficients, plus the
bias slot when tracked) has two or more entries panics instead of
updating. -/
theorem update_unchecked_shape_abort (s : OnlineLR) (new_x new_y : Mat) (c : F64)
    (hy : new_y.nrows = 1)
    (hw : 2 ≤ s.coefficients.nrows + (bif s.fit_bias then 1 else 0)) :
    s.update_unchecked new_x new_y c = none := by
  cases hb : s.fit_bias with
  | true =>
      have hw2 : 2 ≤ s.coefficients.nrows + 1 := by
        rw [hb] at hw
        simpa using hw
      simp only [OnlineLR.update_unchecked, hb, if_true]
      rw [woodbury_step_shape_abort _ _ _ _ _ hy hw2]
      rfl
  | false =>
      have hw2 : 2 ≤ s.coefficients.nrows := by
        rw [hb] at hw
        simpa using hw
      simp only [OnlineLR.update_unchecked, hb, Bool.false_eq_true, if_false]
      rw [woodbury_step_shape_abort _ _ _ _ _ hy hw2]
      rfl

/-! ## Claim C4: the NaN-checked update variant -/

/-- C4 counterexample: a row containing `+∞` — a non-finite value that
is not NaN — is NOT skipped by the NaN-checked `update`: on this
single-effective-weight model the Woodbury step's shapes conform, the
update completes and the model's coefficient actually changes (to NaN,
here), although the claim says the state is left exactly unchanged for
any non-finite value. -/
theorem online_update_infinite_row_applied :
    fittedOnline.is_fit = true
    ∧ XinfRow.entry 0 0 = F64.inf
    ∧ XinfRow.hasNan = false
    ∧ (fittedOnline.update XinfRow Y11 (.fin 1)).map
        (fun s => s.coefficients.entry 0 0)
        ≠ some (fittedOnline.coefficients.entry 0 0) := by
  refine ⟨rfl, by decide, by decide, by decide⟩

/-- C4 (amended): the NaN-checked `update` silently skips (state
returned exactly unchanged, no error raised) exactly when the row `x`
or target `y` contains a NaN entry; when `x` and `y` are NaN-free —
including rows containing ±infinity — the row is NOT skipped: the call
falls through to the unchecked Woodbury update, which (per the shape
bug recorded at C1) aborts for every model with two or more effective
weights and completes only in the single-effective-weight case. -/
theorem online_update_nan_guard (s : OnlineLR) (x y : Mat) (c : F64) :
    ((x.hasNan || y.hasNan) = true → s.update x y c = some s)
    ∧ ((x.hasNan || y.hasNan) = false → s.update x y c = s.update_unchecked x y c)
    ∧ ((x.hasNan || y.hasNan) = false → y.nrows = 1 →
        2 ≤ s.coefficients.nrows + (bif s.fit_bias then 1 else 0) →
        s.update x y c = none) := by
  refine ⟨fun h => by simp [OnlineLR.update, h], fun h => by simp [OnlineLR.update, h],
    fun h hy hw => ?_⟩
  rw [show s.update x y c = s.update_unchecked x y c by simp [OnlineLR.update, h]]
  exact update_unchecked_shape_abort s x y c hy hw

/-- Witness for C4's amended theorem: a NaN-free (but infinite) row is
not skipped, and on a two-effective-weight model a NaN-free row makes
the NaN-checked `update` abort. -/
theorem online_update_nan_guard_witness :
    fittedOnline.update XinfRow Y11 (.fin 1)
      = fittedOnline.update_unchecked XinfRow Y11 (.fin 1)
    ∧ fittedOnlineBias.update X11 Y11 (.fin 1) = none :=
  ⟨(online_update_nan_guard fittedOnline XinfRow Y11 (.fin 1)).2.1 (by decide),
   (online_update_nan_guard fittedOnlineBias X11 Y11 (.fin 1)).2.2 (by decide) rfl
     (by decide)⟩

/-! ## Claim C5: SVD failure handling -/

/-- C5 counterexample: with an environment whose SVD factorization
always fails, both truncated (rcond) SVD variants abort
(`.thin_svd().unwrap()` panics, modelled as `none`) instead of falling
back to QR, while the generic SVD solve path does recover. -/
theorem rcond_svd_failure_aborts :
    faer_solve_lstsq_rcond envZero X11 Y11 (.fin 0) = none
    ∧ faer_solve_ridge_rcond envZero X11 Y11 (.fin 0) false (.fin 0) = none
    ∧ (faer_solve_lstsq envZero X11 Y11 (.fin 0) false .SVD).isSome = true := by
  exact ⟨rfl, rfl, rfl⟩

/-- C5 (amended): for every input, the generic solve on the SVD path
never surfaces a factorization failure: it always returns a result,
and whenever `thin_svd` fails it returns exactly the column-pivoted QR
solution of the same system.  (The explicitly-truncated rcond variants
are excluded: they unwrap the factorization and abort on failure.) -/
theorem svd_solve_falls_back_to_qr (env : FaerEnv) (x y : Mat) (lam : F64) (hb : Bool) :
    (faer_solve_lstsq env x y lam hb .SVD).isSome = true
    ∧ (env.thinSvd (lstsqXtX x lam hb) = none →
        faer_solve_lstsq env x y lam hb .SVD =
          some (env.qrSolve (lstsqXtX x lam hb) ((x.transpose).mul y))) := by
  cases henv : env.thinSvd (lstsqXtX x lam hb) <;>
    simp [faer_solve_lstsq, henv]

/-- Witness for C5's amended theorem at a concrete failing SVD. -/
theorem svd_solve_falls_back_to_qr_witness :
    faer_solve_lstsq envZero X11 Y11 (.fin 0) false .SVD =
      some (envZero.qrSolve (lstsqXtX X11 (.fin 0) false) ((X11.transpose).mul Y11)) :=
  (svd_solve_falls_back_to_qr envZero X11 Y11 (.fin 0) false).2 rfl

/-! ## Claim C8: `fit` precondition checks -/

/-- C8: the closed-form `fit` returns `DimensionMismatch` exactly when
`X.nrows ≠ y.nrows`, and otherwise `NotEnoughData` exactly when
`X.nrows < X.ncols` or `X` has zero rows; `ElasticNet::fit` keeps the
dimension and zero-row checks but accepts `nrows < ncols` (a model is
produced whenever both checks pass).  Errors are ordinary return
values (`some (error …)`, never the `none` that models an abort). -/
theorem fit_error_conditions (env : FaerEnv) (s : LR) (t : ElasticNet) (X y : Mat) :
    ((LR.fit env s X y = some (.error .DimensionMismatch)) ↔ X.nrows ≠ y.nrows)
    ∧ (X.nrows = y.nrows →
        ((LR.fit env s X y = some (.error .NotEnoughData)) ↔
          (X.nrows < X.ncols ∨ X.nrows = 0)))
    ∧ ((ElasticNet.fit t X y = .error .DimensionMismatch) ↔ X.nrows ≠ y.nrows)
    ∧ (X.nrows = y.nrows →
        ((ElasticNet.fit t X y = .error .NotEnoughData) ↔ X.nrows = 0))
    ∧ (X.nrows = y.nrows → X.nrows ≠ 0 → ∃ t2, ElasticNet.fit t X y = .ok t2) := by
  refine ⟨?_, ?_, ?_, ?_, ?_⟩
  · unfold LR.fit
    split_ifs with h1 h2
    · simp [h1]
    · simp [h1, h2]
    · cases hfu : LR.fit_unchecked env s X y <;> simp [h1, hfu]
  · intro heq
    unfold LR.fit
    split_ifs with h1 h2
    · exact absurd heq h1
    · simp
      rcases h2 with h | h | h
      · exact Or.inl h
      · exact Or.inr h
      · exact Or.inr (heq.trans h)
    · rcases not_or.mp h2 with ⟨ha, hb⟩
      rcases not_or.mp hb with ⟨hb1, _⟩
      cases hfu : LR.fit_unchecked env s X y <;> simp [hfu, ha, hb1]
  · unfold ElasticNet.fit
    split_ifs with h1 h2
    · simp [h1]
    · simp [h1, h2]
    · simp [h1]
  · intro heq
    unfold ElasticNet.fit
    split_ifs with h1 h2
    · exact absurd heq h1
    · simp
      rcases h2 with h | h
      · exact h
      · exact heq.trans h
    · rcases not_or.mp h2 with ⟨hb1, _⟩
      simp [hb1]
  · intro heq hne
    unfold ElasticNet.fit
    split_ifs with h1 h2
    · exact absurd heq h1
    · rcases h2 with h2 | h2
      · exact absurd h2 hne
      · exact absurd (heq.trans h2) hne
    · exact ⟨_, rfl⟩

/-- Witness for C8: the spec's concrete scenario — `X` with 3 rows,
`y` with 4 rows — yields `DimensionMismatch`. -/
theorem fit_error_conditions_witness :
    LR.fit envZero sampleLR X31 Y41 = some (.error .DimensionMismatch) :=
  (fit_error_conditions envZero sampleLR sampleEN X31 Y41).1.mpr (by decide)

/-! ## Claim C6: ridge augmentation of the normal-equations matrix -/

theorem F64.le_of_lt {a b : F64} (h : F64.lt a b = true) : F64.le a b = true := by
  cases a <;> cases b <;> simp_all [F64.lt, F64.le] <;> linarith

/-- C6: for every design matrix `X` with `p` columns, ridge strength
`lambda > 0` and `has_bias` flag, the normal-equations matrix built by
`faer_solve_lstsq` (`lstsqXtX`) and by `faer_qr_lstsq_with_inv`
(`invXtX`) is `p × p` and equals `XᵗX` with `lambda` added to exactly
the first `p - (1 if has_bias else 0)` diagonal entries: the bias
row/column diagonal entry is never augmented, and every off-diagonal
entry is unchanged. -/
theorem ridge_diagonal_augmentation (x : Mat) (lam : F64) (hb : Bool)
    (hlam : F64.lt (.fin 0) lam = true) :
    (lstsqXtX x lam hb).nrows = x.ncols ∧ (lstsqXtX x lam hb).ncols = x.ncols
    ∧ (invXtX x lam hb).nrows = x.ncols ∧ (invXtX x lam hb).ncols = x.ncols
    ∧ ∀ i j, i < x.ncols → j < x.ncols →
        ((lstsqXtX x lam hb).entry i j =
          (if i = j ∧ i < x.ncols - (bif hb then 1 else 0)
           then ((x.transpose).mul x).entry i j + lam
           else ((x.transpose).mul x).entry i j))
        ∧ ((invXtX x lam hb).entry i j =
          (if i = j ∧ i < x.ncols - (bif hb then 1 else 0)
           then ((x.transpose).mul x).entry i j + lam
           else ((x.transpose).mul x).entry i j)) := by
  have hle : F64.le (.fin 0) lam = true := F64.le_of_lt hlam
  refine ⟨?_, ?_, ?_, ?_, ?_⟩
  · simp only [lstsqXtX]; split <;> rfl
  · simp only [lstsqXtX]; split <;> rfl
  · simp only [invXtX]; split <;> rfl
  · simp only [invXtX]; split <;> rfl
  · intro i j hi hj
    have hdist : Nat.dist x.ncols (bif hb then 1 else 0) =
        x.ncols - (bif hb then 1 else 0) := by
      cases hb
      · simp [Nat.dist]
      · simp only [Nat.dist, cond_true]
        omega
    have hentry : (ridgeDiagAdd ((x.transpose).mul x) lam
        (Nat.dist x.ncols (bif hb then 1 else 0))).entry i j =
        (if i = j ∧ i < x.ncols - (bif hb then 1 else 0)
         then ((x.transpose).mul x).entry i j + lam
         else ((x.transpose).mul x).entry i j) := by
      have h1 : (ridgeDiagAdd ((x.transpose).mul x) lam
          (Nat.dist x.ncols (bif hb then 1 else 0))).entry i j =
          (if i = j ∧ i < Nat.dist x.ncols (bif hb then 1 else 0)
           then ((x.transpose).mul x).entry i j + lam
           else ((x.transpose).mul x).entry i j) := Mat.of_entry _ hi hj
      rw [h1, hdist]
    constructor
    · simp only [lstsqXtX]
      by_cases hg : F64.le (.fin 0) lam = true ∧ 1 ≤ Nat.dist x.ncols (bif hb then 1 else 0)
      · rw [if_pos hg]
        exact hentry
      · rw [if_neg hg]
        have hnd : Nat.dist x.ncols (bif hb then 1 else 0) = 0 := by
          by_contra hne
          exact hg ⟨hle, Nat.one_le_iff_ne_zero.mpr hne⟩
        have hno : ¬(i = j ∧ i < x.ncols - (bif hb then 1 else 0)) := by
          rw [← hdist, hnd]
          rintro ⟨_, h⟩
          omega
        rw [if_neg hno]
    · simp only [invXtX]
      by_cases hg : F64.lt (.fin 0) lam = true ∧ 1 ≤ Nat.dist x.ncols (bif hb then 1 else 0)
      · rw [if_pos hg]
        exact hentry
      · rw [if_neg hg]
        have hnd : Nat.dist x.ncols (bif hb then 1 else 0) = 0 := by
          by_contra hne
          exact hg ⟨hlam, Nat.one_le_iff_ne_zero.mpr hne⟩
        have hno : ¬(i = j ∧ i < x.ncols - (bif hb then 1 else 0)) := by
          rw [← hdist, hnd]
          rintro ⟨_, h⟩
          omega
        rw [if_neg hno]

/-- Witness for C6: a concrete one-feature, no-bias system with
`lambda = 1`. -/
theorem ridge_diagonal_augmentation_witness :
    (lstsqXtX X31 (.fin 1) false).entry 0 0 = ((X31.transpose).mul X31).entry 0 0 + .fin 1
    ∧ (invXtX X31 (.fin 1) false).entry 0 0 = ((X31.transpose).mul X31).entry 0 0 + .fin 1 := by
  have h := (ridge_diagonal_augmentation X31 (.fin 1) false (by decide)).2.2.2.2
    0 0 (by decide) (by decide)
  constructor
  · have h1 := h.1
    rwa [if_pos (by decide)] at h1
  · have h1 := h.2
    rwa [if_pos (by decide)] at h1

/-! ## Claim C1: the Woodbury rank-1 update -/

/-- **C1.** (code-bug evidence) The rank-1 update never performs the
documented `u = M·xᵗ, z = 1/(c + x·u), M −= z·u·uᵗ, β += z·(y − x·β)·u`
update on a model with two or more effective weights: the weights
accumulation `matmul(weights, Accum::Add, y_diff, u, z)` has its `lhs`
and `rhs` operands in shape-incompatible positions (the `1 × 1`
`y_diff` as `lhs` against the multi-row destination), so faer's shape
asserts panic and the call aborts with no updated state. -/
theorem woodbury_update_aborts (s : OnlineLR) (new_x new_y : Mat) (c : F64)
    (hy : new_y.nrows = 1)
    (hw : 2 ≤ s.coefficients.nrows + (bif s.fit_bias then 1 else 0)) :
    s.update_unchecked new_x new_y c = none :=
  update_unchecked_shape_abort s new_x new_y c hy hw

/-- Witness for C1: the concrete bias-tracking model (one coefficient
plus the bias slot: two effective weights) aborts instead of absorbing
the new row. -/
theorem woodbury_update_aborts_witness :
    fittedOnlineBias.update_unchecked X11 Y55 (.fin 1) = none :=
  woodbury_update_aborts fittedOnlineBias X11 Y55 (.fin 1) rfl (by decide)


/-! ## Claim C7: the coordinate-descent optimizer -/

theorem Mat.set_entry (A : Mat) (i j : ℕ) (v : F64) {a b : ℕ}
    (ha : a < A.nrows) (hb : b < A.ncols) :
    (A.set i j v).entry a b = if a = i ∧ b = j then v else A.entry a b :=
  Mat.of_entry _ ha hb

theorem Mat.row_entry (A : Mat) (i : ℕ) {j : ℕ} (hj : j < A.ncols) :
    (A.row i).entry 0 j = A.entry i j :=
  Mat.of_entry _ Nat.one_pos hj

theorem Mat.topRows_entry (A : Mat) (n : ℕ) {i j : ℕ} (hi : i < n) (hj : j < A.ncols) :
    (A.topRows n).entry i j = A.entry i j :=
  Mat.of_entry _ hi hj

theorem Mat.mul_entry (A B : Mat) {i j : ℕ} (hi : i < A.nrows) (hj : j < B.ncols) :
    (A.mul B).entry i j = dotF (fun k => A.entry i k) (fun k => B.entry k j) A.ncols :=
  Mat.of_entry _ hi hj

theorem Mat.transpose_entry (A : Mat) {i j : ℕ} (hi : i < A.ncols) (hj : j < A.nrows) :
    (A.transpose).entry i j = A.entry j i :=
  Mat.of_entry _ hi hj

theorem Mat.sub_entry (A B : Mat) {i j : ℕ} (hi : i < A.nrows) (hj : j < A.ncols) :
    (A.sub B).entry i j = A.entry i j - B.entry i j :=
  Mat.of_entry _ hi hj

theorem sumF_one (g : ℕ → F64) : sumF g 1 = g 0 := by
  show sumF g 0 + g 0 = g 0
  rw [show sumF g 0 = F64.fin 0 from rfl, F64.zero_add]

/-- The `XᵗY` entries used by coordinate descent, in spec form. -/
theorem xty_entry (x y : Mat) (hyc : y.ncols = 1) {j : ℕ} (hj : j < x.ncols) :
    ((x.transpose).mul y).entry j 0 =
      dotF (fun i => x.entry i j) (fun i => y.entry i 0) x.nrows := by
  rw [Mat.mul_entry _ _ (show j < (x.transpose).nrows from hj)
    (show (0:ℕ) < y.ncols by omega)]
  exact dotF_congr (fun k hk => Mat.transpose_entry x hj hk) (fun k _ => rfl)

/-- The `XᵗX` entries used by coordinate descent, in spec form. -/
theorem xtx_entry (x : Mat) {j k : ℕ} (hj : j < x.ncols) (hk : k < x.ncols) :
    ((x.transpose).mul x).entry j k =
      dotF (fun i => x.entry i j) (fun i => x.entry i k) x.nrows := by
  rw [Mat.mul_entry _ _ (show j < (x.transpose).nrows from hj) hk]
  exact dotF_congr (fun i hi => Mat.transpose_entry x hj hi) (fun i _ => rfl)

/-- One coordinate update of the embedded descent loop agrees with the
spec's coordinate update, under the state correspondence. -/
theorem cdCoordStep_sim (x y : Mat) (l1 l2 : F64) (hyc : y.ncols = 1)
    (j : ℕ) (hj : j < x.ncols)
    (beta : Mat) (f : ℕ → F64) (mc mc' : F64) (hmc : mc = mc')
    (h1 : beta.nrows = x.ncols) (h2 : beta.ncols = 1)
    (h3 : ∀ k, k < x.ncols → beta.entry k 0 = f k) :
    (cdCoordStep ((x.transpose).mul x) ((x.transpose).mul y)
      (fun j => dotF (fun i => x.entry i j) (fun i => x.entry i j) x.nrows +
        F64.fin (x.nrows : ℚ) * l2)
      (F64.fin (x.nrows : ℚ) * l1) (beta, mc) j).1.nrows = x.ncols
    ∧ (cdCoordStep ((x.transpose).mul x) ((x.transpose).mul y)
      (fun j => dotF (fun i => x.entry i j) (fun i => x.entry i j) x.nrows +
        F64.fin (x.nrows : ℚ) * l2)
      (F64.fin (x.nrows : ℚ) * l1) (beta, mc) j).1.ncols = 1
    ∧ (∀ k, k < x.ncols →
        (cdCoordStep ((x.transpose).mul x) ((x.transpose).mul y)
          (fun j => dotF (fun i => x.entry i j) (fun i => x.entry i j) x.nrows +
            F64.fin (x.nrows : ℚ) * l2)
          (F64.fin (x.nrows : ℚ) * l1) (beta, mc) j).1.entry k 0 =
          (specFeatureStep x y l1 l2 (f, mc') j).1 k)
    ∧ (cdCoordStep ((x.transpose).mul x) ((x.transpose).mul y)
        (fun j => dotF (fun i => x.entry i j) (fun i => x.entry i j) x.nrows +
          F64.fin (x.nrows : ℚ) * l2)
        (F64.fin (x.nrows : ℚ) * l1) (beta, mc) j).2 =
        (specFeatureStep x y l1 l2 (f, mc') j).2 := by
  have hb0 : ∀ k, k < x.ncols →
      (beta.set j 0 (.fin 0)).entry k 0 = (if k = j then .fin 0 else f k) := by
    intro k hk
    rw [Mat.set_entry _ _ _ _ (by omega) (by omega)]
    by_cases hkj : k = j
    · simp [hkj]
    · simp [hkj, h3 k hk]
  have hmu : ((((x.transpose).mul x).row j).mul (beta.set j 0 (.fin 0))).entry 0 0 =
      dotF (fun k => dotF (fun i => x.entry i j) (fun i => x.entry i k) x.nrows)
        (fun k => if k = j then .fin 0 else f k) x.ncols := by
    have hc : (0:ℕ) < (beta.set j 0 (.fin 0)).ncols := by
      show 0 < beta.ncols
      omega
    rw [Mat.mul_entry _ _ (show (0:ℕ) < 1 by omega) hc]
    refine dotF_congr ?_ ?_
    · intro k hk
      have hk' : k < x.ncols := hk
      rw [Mat.row_entry _ _ (show k < ((x.transpose).mul x).ncols from hk'),
        xtx_entry x hj hk']
    · intro k hk
      have hk' : k < x.ncols := hk
      exact hb0 k hk'
  have hafter :
      soft_threshold_l1
        (((x.transpose).mul y).entry j 0 -
          ((((x.transpose).mul x).row j).mul (beta.set j 0 (.fin 0))).entry 0 0)
        (F64.fin (x.nrows : ℚ) * l1) /
        (dotF (fun i => x.entry i j) (fun i => x.entry i j) x.nrows +
          F64.fin (x.nrows : ℚ) * l2) =
      specSoftThreshold
        (dotF (fun i => x.entry i j) (fun i => y.entry i 0) x.nrows -
          dotF (fun k => dotF (fun i => x.entry i j) (fun i => x.entry i k) x.nrows)
            (fun k => if k = j then .fin 0 else f k) x.ncols)
        (F64.fin (x.nrows : ℚ) * l1) /
        (dotF (fun i => x.entry i j) (fun i => x.entry i j) x.nrows +
          F64.fin (x.nrows : ℚ) * l2) := by
    rw [xty_entry x y hyc hj, hmu]
    rfl
  refine ⟨h1, h2, ?_, ?_⟩
  · intro k hk
    have hcode : (cdCoordStep ((x.transpose).mul x) ((x.transpose).mul y)
        (fun j => dotF (fun i => x.entry i j) (fun i => x.entry i j) x.nrows +
          F64.fin (x.nrows : ℚ) * l2)
        (F64.fin (x.nrows : ℚ) * l1) (beta, mc) j).1.entry k 0 =
        if k = j ∧ 0 = 0 then
          soft_threshold_l1
            (((x.transpose).mul y).entry j 0 -
              ((((x.transpose).mul x).row j).mul (beta.set j 0 (.fin 0))).entry 0 0)
            (F64.fin (x.nrows : ℚ) * l1) /
            (dotF (fun i => x.entry i j) (fun i => x.entry i j) x.nrows +
              F64.fin (x.nrows : ℚ) * l2)
        else (beta.set j 0 (.fin 0)).entry k 0 :=
      Mat.set_entry _ _ _ _ (by show k < beta.nrows; omega) (by show (0:ℕ) < beta.ncols; omega)
    have hspec : (specFeatureStep x y l1 l2 (f, mc') j).1 k =
        if k = j then
          specSoftThreshold
            (dotF (fun i => x.entry i j) (fun i => y.entry i 0) x.nrows -
              dotF (fun k => dotF (fun i => x.entry i j) (fun i => x.entry i k) x.nrows)
                (fun k => if k = j then .fin 0 else f k) x.ncols)
            (F64.fin (x.nrows : ℚ) * l1) /
            (dotF (fun i => x.entry i j) (fun i => x.entry i j) x.nrows +
              F64.fin (x.nrows : ℚ) * l2)
        else f k := rfl
    rw [hcode, hspec]
    by_cases hkj : k = j
    · rw [if_pos ⟨hkj, rfl⟩, if_pos hkj, hafter]
    · rw [if_neg (by rintro ⟨hkk, _⟩; exact hkj hkk), if_neg hkj, hb0 k hk, if_neg hkj]
  · have hcode2 : (cdCoordStep ((x.transpose).mul x) ((x.transpose).mul y)
        (fun j => dotF (fun i => x.entry i j) (fun i => x.entry i j) x.nrows +
          F64.fin (x.nrows : ℚ) * l2)
        (F64.fin (x.nrows : ℚ) * l1) (beta, mc) j).2 =
        F64.max
          ((soft_threshold_l1
            (((x.transpose).mul y).entry j 0 -
              ((((x.transpose).mul x).row j).mul (beta.set j 0 (.fin 0))).entry 0 0)
            (F64.fin (x.nrows : ℚ) * l1) /
            (dotF (fun i => x.entry i j) (fun i => x.entry i j) x.nrows +
              F64.fin (x.nrows : ℚ) * l2) - beta.entry j 0).abs) mc := rfl
    have hspec2 : (specFeatureStep x y l1 l2 (f, mc') j).2 =
        F64.max
          ((specSoftThreshold
            (dotF (fun i => x.entry i j) (fun i => y.entry i 0) x.nrows -
              dotF (fun k => dotF (fun i => x.entry i j) (fun i => x.entry i k) x.nrows)
                (fun k => if k = j then .fin 0 else f k) x.ncols)
            (F64.fin (x.nrows : ℚ) * l1) /
            (dotF (fun i => x.entry i j) (fun i => x.entry i j) x.nrows +
              F64.fin (x.nrows : ℚ) * l2) - f j).abs) mc' := rfl
    rw [hcode2, hspec2, hafter, h3 j hj, hmc]

/-- The cyclic coordinate pass (a left fold of `cdCoordStep`) agrees
with the spec's pass, coordinate by coordinate. -/
theorem cd_fold_sim (x y : Mat) (l1 l2 : F64) (hyc : y.ncols = 1) :
    ∀ (l : List ℕ), (∀ j ∈ l, j < x.ncols) →
    ∀ (beta : Mat) (f : ℕ → F64) (mc mc' : F64), mc = mc' →
      beta.nrows = x.ncols → beta.ncols = 1 →
      (∀ k, k < x.ncols → beta.entry k 0 = f k) →
      (l.foldl (cdCoordStep ((x.transpose).mul x) ((x.transpose).mul y)
        (fun j => dotF (fun i => x.entry i j) (fun i => x.entry i j) x.nrows +
          F64.fin (x.nrows : ℚ) * l2)
        (F64.fin (x.nrows : ℚ) * l1)) (beta, mc)).1.nrows = x.ncols
      ∧ (l.foldl (cdCoordStep ((x.transpose).mul x) ((x.transpose).mul y)
        (fun j => dotF (fun i => x.entry i j) (fun i => x.entry i j) x.nrows +
          F64.fin (x.nrows : ℚ) * l2)
        (F64.fin (x.nrows : ℚ) * l1)) (beta, mc)).1.ncols = 1
      ∧ (∀ k, k < x.ncols →
          (l.foldl (cdCoordStep ((x.transpose).mul x) ((x.transpose).mul y)
            (fun j => dotF (fun i => x.entry i j) (fun i => x.entry i j) x.nrows +
              F64.fin (x.nrows : ℚ) * l2)
            (F64.fin (x.nrows : ℚ) * l1)) (beta, mc)).1.entry k 0 =
            (l.foldl (specFeatureStep x y l1 l2) (f, mc')).1 k)
      ∧ (l.foldl (cdCoordStep ((x.transpose).mul x) ((x.transpose).mul y)
        (fun j => dotF (fun i => x.entry i j) (fun i => x.entry i j) x.nrows +
          F64.fin (x.nrows : ℚ) * l2)
        (F64.fin (x.nrows : ℚ) * l1)) (beta, mc)).2 =
        (l.foldl (specFeatureStep x y l1 l2) (f, mc')).2 := by
  intro l
  induction l with
  | nil =>
      intro _ beta f mc mc' hmc h1 h2 h3
      exact ⟨h1, h2, h3, hmc⟩
  | cons j t ih =>
      intro hmem beta f mc mc' hmc h1 h2 h3
      have hj : j < x.ncols := hmem j (List.mem_cons_self j t)
      obtain ⟨s1, s2, s3, s4⟩ := cdCoordStep_sim x y l1 l2 hyc j hj beta f mc mc' hmc h1 h2 h3
      rw [List.foldl_cons, List.foldl_cons]
      exact ih (fun k hk => hmem k (List.mem_cons_of_mem j hk))
        (cdCoordStep ((x.transpose).mul x) ((x.transpose).mul y)
          (fun j => dotF (fun i => x.entry i j) (fun i => x.entry i j) x.nrows +
            F64.fin (x.nrows : ℚ) * l2)
          (F64.fin (x.nrows : ℚ) * l1) (beta, mc) j).1
        (specFeatureStep x y l1 l2 (f, mc') j).1
        (cdCoordStep ((x.transpose).mul x) ((x.transpose).mul y)
          (fun j => dotF (fun i => x.entry i j) (fun i => x.entry i j) x.nrows +
            F64.fin (x.nrows : ℚ) * l2)
          (F64.fin (x.nrows : ℚ) * l1) (beta, mc) j).2
        (specFeatureStep x y l1 l2 (f, mc') j).2 s4 s1 s2 s3

/-- One full sweep of the embedded descent agrees with the spec's
sweep, including the closed-form bias update. -/
theorem cd_sweep_sim (x y : Mat) (l1 l2 : F64) (hb : Bool)
    (hyr : y.nrows = x.nrows) (hyc : y.ncols = 1)
    (hn1 : Nat.dist x.ncols (bif hb then 1 else 0) = x.ncols - (bif hb then 1 else 0))
    (beta : Mat) (f : ℕ → F64)
    (h1 : beta.nrows = x.ncols) (h2 : beta.ncols = 1)
    (h3 : ∀ k, k < x.ncols → beta.entry k 0 = f k) :
    (cdSweep x y ((x.transpose).mul x) ((x.transpose).mul y)
      (fun j => dotF (fun i => x.entry i j) (fun i => x.entry i j) x.nrows +
        F64.fin (x.nrows : ℚ) * l2)
      (F64.fin (x.nrows : ℚ) * l1) hb (Nat.dist x.ncols (bif hb then 1 else 0))
      (F64.fin (x.nrows : ℚ)) beta).1.nrows = x.ncols
    ∧ (cdSweep x y ((x.transpose).mul x) ((x.transpose).mul y)
      (fun j => dotF (fun i => x.entry i j) (fun i => x.entry i j) x.nrows +
        F64.fin (x.nrows : ℚ) * l2)
      (F64.fin (x.nrows : ℚ) * l1) hb (Nat.dist x.ncols (bif hb then 1 else 0))
      (F64.fin (x.nrows : ℚ)) beta).1.ncols = 1
    ∧ (∀ k, k < x.ncols →
        (cdSweep x y ((x.transpose).mul x) ((x.transpose).mul y)
          (fun j => dotF (fun i => x.entry i j) (fun i => x.entry i j) x.nrows +
            F64.fin (x.nrows : ℚ) * l2)
          (F64.fin (x.nrows : ℚ) * l1) hb (Nat.dist x.ncols (bif hb then 1 else 0))
          (F64.fin (x.nrows : ℚ)) beta).1.entry k 0 =
          (specSweep x y l1 l2 hb f).1 k)
    ∧ (cdSweep x y ((x.transpose).mul x) ((x.transpose).mul y)
      (fun j => dotF (fun i => x.entry i j) (fun i => x.entry i j) x.nrows +
        F64.fin (x.nrows : ℚ) * l2)
      (F64.fin (x.nrows : ℚ) * l1) hb (Nat.dist x.ncols (bif hb then 1 else 0))
      (F64.fin (x.nrows : ℚ)) beta).2 =
      (specSweep x y l1 l2 hb f).2 := by
  rw [hn1]
  obtain ⟨s1, s2, s3, s4⟩ := cd_fold_sim x y l1 l2 hyc
    (List.range (x.ncols - (bif hb then 1 else 0)))
    (fun j hj => lt_of_lt_of_le (List.mem_range.mp hj) (Nat.sub_le _ _))
    beta f (.fin 0) (.fin 0) rfl h1 h2 h3
  cases hb with
  | false => exact ⟨s1, s2, s3, s4⟩
  | true =>
      refine ⟨s1, s2, ?_, s4⟩
      intro k hk
      set N := x.ncols - (bif true then 1 else 0) with hNdef
      set st := (List.range N).foldl
        (cdCoordStep ((x.transpose).mul x) ((x.transpose).mul y)
          (fun j => dotF (fun i => x.entry i j) (fun i => x.entry i j) x.nrows +
            F64.fin (x.nrows : ℚ) * l2)
          (F64.fin (x.nrows : ℚ) * l1)) (beta, F64.fin 0) with hst
      set sts := (List.range N).foldl (specFeatureStep x y l1 l2) (f, F64.fin 0) with hsts
      have hcode : (cdSweep x y ((x.transpose).mul x) ((x.transpose).mul y)
          (fun j => dotF (fun i => x.entry i j) (fun i => x.entry i j) x.nrows +
            F64.fin (x.nrows : ℚ) * l2)
          (F64.fin (x.nrows : ℚ) * l1) true N
          (F64.fin (x.nrows : ℚ)) beta).1 =
          (st.1).set N 0
            ((y.sub ((Mat.of x.nrows N fun i j => x.entry i j).mul
              ((st.1).topRows N))).sum / (F64.fin (x.nrows : ℚ))) := by
        rw [hst]
        rfl
      have hspec : (specSweep x y l1 l2 true f).1 = fun k =>
          if k = N then
            (sumF (fun i => y.entry i 0 -
              dotF (fun k => x.entry i k) (fun k => sts.1 k) N) x.nrows) /
              (F64.fin (x.nrows : ℚ))
          else sts.1 k := by
        rw [hsts]
        rfl
      rw [hcode, hspec]
      simp only []
      rw [Mat.set_entry _ _ _ _ (show k < st.1.nrows by omega) (show 0 < st.1.ncols by omega)]
      by_cases hkn : k = N
      · rw [if_pos ⟨hkn, rfl⟩, if_pos hkn]
        have hsum : (y.sub ((Mat.of x.nrows N fun i j => x.entry i j).mul
            ((st.1).topRows N))).sum =
            sumF (fun i => y.entry i 0 -
              dotF (fun k => x.entry i k) (fun k => sts.1 k) N) x.nrows := by
          show sumF (fun i => sumF (fun j =>
              (y.sub ((Mat.of x.nrows N fun i j => x.entry i j).mul
                ((st.1).topRows N))).entry i j) y.ncols) y.nrows = _
          simp only [hyc, hyr]
          refine sumF_congr (fun i hi => ?_)
          rw [sumF_one]
          rw [Mat.sub_entry _ _ (show i < y.nrows by omega) (show 0 < y.ncols by omega)]
          have hmul : ((Mat.of x.nrows N fun i j => x.entry i j).mul
              ((st.1).topRows N)).entry i 0 =
              dotF (fun k => (Mat.of x.nrows N fun i j => x.entry i j).entry i k)
                (fun k => ((st.1).topRows N).entry k 0)
                (Mat.of x.nrows N fun i j => x.entry i j).ncols :=
            Mat.mul_entry _ _ (show i < x.nrows from hi)
              (show 0 < st.1.ncols by omega)
          rw [hmul]
          have hdot : dotF (fun k => (Mat.of x.nrows N fun i j => x.entry i j).entry i k)
              (fun k => ((st.1).topRows N).entry k 0)
              ((Mat.of x.nrows N fun i j => x.entry i j).ncols) =
              dotF (fun k => x.entry i k) (fun k => sts.1 k) N := by
            refine dotF_congr (fun k hk2 => ?_) (fun k hk2 => ?_)
            · exact Mat.of_entry _ hi hk2
            · have hk3 : k < N := hk2
              rw [Mat.topRows_entry _ _ hk3 (show 0 < st.1.ncols by omega)]
              exact s3 k (lt_of_lt_of_le hk3 (Nat.sub_le _ _))
          rw [hdot]
        rw [hsum]
      · rw [if_neg (by rintro ⟨hkk, _⟩; exact hkn hkk), if_neg hkn]
        exact s3 k hk

/-- The sweep-until-converged loop of the embedded descent agrees with
the spec's loop. -/
theorem cd_loop_sim (x y : Mat) (l1 l2 : F64) (hb : Bool) (tol : F64)
    (hyr : y.nrows = x.nrows) (hyc : y.ncols = 1)
    (hn1 : Nat.dist x.ncols (bif hb then 1 else 0) = x.ncols - (bif hb then 1 else 0)) :
    ∀ (fuel : ℕ) (beta : Mat) (f : ℕ → F64),
      beta.nrows = x.ncols → beta.ncols = 1 →
      (∀ k, k < x.ncols → beta.entry k 0 = f k) →
      (cdLoop x y ((x.transpose).mul x) ((x.transpose).mul y)
        (fun j => dotF (fun i => x.entry i j) (fun i => x.entry i j) x.nrows +
          F64.fin (x.nrows : ℚ) * l2)
        (F64.fin (x.nrows : ℚ) * l1) hb (Nat.dist x.ncols (bif hb then 1 else 0))
        (F64.fin (x.nrows : ℚ)) tol fuel beta).nrows = x.ncols
      ∧ (cdLoop x y ((x.transpose).mul x) ((x.transpose).mul y)
        (fun j => dotF (fun i => x.entry i j) (fun i => x.entry i j) x.nrows +
          F64.fin (x.nrows : ℚ) * l2)
        (F64.fin (x.nrows : ℚ) * l1) hb (Nat.dist x.ncols (bif hb then 1 else 0))
        (F64.fin (x.nrows : ℚ)) tol fuel beta).ncols = 1
      ∧ ∀ k, k < x.ncols →
          (cdLoop x y ((x.transpose).mul x) ((x.transpose).mul y)
            (fun j => dotF (fun i => x.entry i j) (fun i => x.entry i j) x.nrows +
              F64.fin (x.nrows : ℚ) * l2)
            (F64.fin (x.nrows : ℚ) * l1) hb (Nat.dist x.ncols (bif hb then 1 else 0))
            (F64.fin (x.nrows : ℚ)) tol fuel beta).entry k 0 =
            specCD x y l1 l2 hb tol fuel f k := by
  intro fuel
  induction fuel with
  | zero =>
      intro beta f h1 h2 h3
      exact ⟨h1, h2, h3⟩
  | succ fuel ih =>
      intro beta f h1 h2 h3
      obtain ⟨w1, w2, w3, w4⟩ := cd_sweep_sim x y l1 l2 hb hyr hyc hn1 beta f h1 h2 h3
      have hstep : cdLoop x y ((x.transpose).mul x) ((x.transpose).mul y)
          (fun j => dotF (fun i => x.entry i j) (fun i => x.entry i j) x.nrows +
            F64.fin (x.nrows : ℚ) * l2)
          (F64.fin (x.nrows : ℚ) * l1) hb (Nat.dist x.ncols (bif hb then 1 else 0))
          (F64.fin (x.nrows : ℚ)) tol (fuel + 1) beta =
          (if F64.lt (cdSweep x y ((x.transpose).mul x) ((x.transpose).mul y)
            (fun j => dotF (fun i => x.entry i j) (fun i => x.entry i j) x.nrows +
              F64.fin (x.nrows : ℚ) * l2)
            (F64.fin (x.nrows : ℚ) * l1) hb (Nat.dist x.ncols (bif hb then 1 else 0))
            (F64.fin (x.nrows : ℚ)) beta).2 tol then
            (cdSweep x y ((x.transpose).mul x) ((x.transpose).mul y)
              (fun j => dotF (fun i => x.entry i j) (fun i => x.entry i j) x.nrows +
                F64.fin (x.nrows : ℚ) * l2)
              (F64.fin (x.nrows : ℚ) * l1) hb (Nat.dist x.ncols (bif hb then 1 else 0))
              (F64.fin (x.nrows : ℚ)) beta).1
          else cdLoop x y ((x.transpose).mul x) ((x.transpose).mul y)
            (fun j => dotF (fun i => x.entry i j) (fun i => x.entry i j) x.nrows +
              F64.fin (x.nrows : ℚ) * l2)
            (F64.fin (x.nrows : ℚ) * l1) hb (Nat.dist x.ncols (bif hb then 1 else 0))
            (F64.fin (x.nrows : ℚ)) tol fuel
            (cdSweep x y ((x.transpose).mul x) ((x.transpose).mul y)
              (fun j => dotF (fun i => x.entry i j) (fun i => x.entry i j) x.nrows +
                F64.fin (x.nrows : ℚ) * l2)
              (F64.fin (x.nrows : ℚ) * l1) hb (Nat.dist x.ncols (bif hb then 1 else 0))
              (F64.fin (x.nrows : ℚ)) beta).1) := rfl
      have hsp : specCD x y l1 l2 hb tol (fuel + 1) f =
          (if F64.lt (specSweep x y l1 l2 hb f).2 tol then (specSweep x y l1 l2 hb f).1
           else specCD x y l1 l2 hb tol fuel (specSweep x y l1 l2 hb f).1) := rfl
      rw [hstep, hsp, w4]
      by_cases hlt : F64.lt (specSweep x y l1 l2 hb f).2 tol = true
      · rw [if_pos hlt, if_pos hlt]
        exact ⟨w1, w2, w3⟩
      · rw [if_neg hlt, if_neg hlt]
        exact ih (cdSweep x y ((x.transpose).mul x) ((x.transpose).mul y)
          (fun j => dotF (fun i => x.entry i j) (fun i => x.entry i j) x.nrows +
            F64.fin (x.nrows : ℚ) * l2)
          (F64.fin (x.nrows : ℚ) * l1) hb (Nat.dist x.ncols (bif hb then 1 else 0))
          (F64.fin (x.nrows : ℚ)) beta).1 (specSweep x y l1 l2 hb f).1 w1 w2 w3

/-- C7: `faer_coordinate_descent` computes exactly the procedure the
claim describes (formalized as `specCoordinateDescent`): starting from
`beta = 0`, deterministic cyclic sweeps over the true-feature columns
with `beta_j = softThreshold(r_j, n·l1_reg)/(colNormSq_j + n·l2_reg)`
(`r_j` computed with `beta_j` temporarily zeroed), the bias slot (when
modeled) set to `mean(y - X_features·beta_features)` after each sweep,
stopping when the maximum absolute coordinate change falls below `tol`
or after `max_iter` sweeps, returning the best-so-far vector
non-fatally in the non-converged case. -/
theorem coordinate_descent_matches_spec (x y : Mat) (l1 l2 : F64) (hb : Bool)
    (tol : F64) (mi : ℕ) (hyr : y.nrows = x.nrows) (hyc : y.ncols = 1)
    (hbc : hb = true → 1 ≤ x.ncols) :
    (faer_coordinate_descent x y l1 l2 hb tol mi).nrows = x.ncols
    ∧ (faer_coordinate_descent x y l1 l2 hb tol mi).ncols = 1
    ∧ ∀ i, i < x.ncols →
        (faer_coordinate_descent x y l1 l2 hb tol mi).entry i 0 =
          specCoordinateDescent x y l1 l2 hb tol mi i := by
  have hn1 : Nat.dist x.ncols (bif hb then 1 else 0) =
      x.ncols - (bif hb then 1 else 0) := by
    cases hb
    · simp [Nat.dist]
    · have := hbc rfl
      simp only [Nat.dist, cond_true]
      omega
  exact cd_loop_sim x y l1 l2 hb tol hyr hyc hn1 mi (Mat.zeros x.ncols 1)
    (fun _ => .fin 0) rfl rfl (fun k hk => Mat.of_entry _ hk Nat.one_pos)

/-- Witness for C7 on a concrete `3 × 1` system. -/
theorem coordinate_descent_matches_spec_witness :
    (faer_coordinate_descent X31 X31 (.fin 0) (.fin 0) false (.fin 1) 2).entry 0 0 =
      specCoordinateDescent X31 X31 (.fin 0) (.fin 0) false (.fin 1) 2 0 := by
  have h := coordinate_descent_matches_spec X31 X31 (.fin 0) (.fin 0) false (.fin 1) 2
    rfl rfl (by decide)
  exact h.2.2 0 (by decide)

/-! ## Claim C10: the windowed drivers -/

/-- Splitting the head off a window's index range. -/
theorem range'_cons (s n : ℕ) : List.range' s (n + 1) = s :: List.range' (s + 1) n :=
  List.range'_succ s n 1

/-- Splitting the last index off a window's index range. -/
theorem range'_snoc (s n : ℕ) : List.range' s (n + 1) = List.range' s n ++ [s + n] := by
  have h : List.range' s (n + 1) 1 = List.range' s n 1 ++ [s + 1 * n] := List.range'_concat s n
  simpa using h

theorem validCount_eq_countP (x y : Mat) (s len : ℕ) :
    validCount x y s len = (List.range' s len).countP (rowValid x y) :=
  (List.countP_eq_length_filter _ _).symm

/-- A window whose first row is valid holds at least one valid row. -/
theorem validCount_pos_of_head (x y : Mat) (s n : ℕ) (h1 : 1 ≤ n)
    (hv : rowValid x y s = true) : 1 ≤ validCount x y s n := by
  obtain ⟨k, rfl⟩ : ∃ k, n = k + 1 := ⟨n - 1, by omega⟩
  rw [validCount_eq_countP, range'_cons, List.countP_cons]
  simp [hv]

/-- Sliding the window one row to the right changes the valid count by
the validity of the leaving and entering rows. -/
theorem validCount_slide (x y : Mat) (n j : ℕ) (h1 : 1 ≤ n) (hnj : n ≤ j) :
    validCount x y (j - n + 1) n =
      validCount x y (j - n) n - (if rowValid x y (j - n) then 1 else 0)
        + (if rowValid x y j then 1 else 0) := by
  obtain ⟨k, rfl⟩ : ∃ k, n = k + 1 := ⟨n - 1, by omega⟩
  have hd : List.range' (j - (k + 1)) (k + 1) =
      (j - (k + 1)) :: List.range' (j - (k + 1) + 1) k := range'_cons _ _
  have hc : List.range' (j - (k + 1) + 1) (k + 1) =
      List.range' (j - (k + 1) + 1) k ++ [j] := by
    have h := range'_snoc (j - (k + 1) + 1) k
    have h2 : j - (k + 1) + 1 + k = j := by omega
    rwa [h2] at h
  rw [validCount_eq_countP, validCount_eq_countP, hc, List.countP_append, hd]
  simp only [List.countP_cons, List.countP_nil]
  by_cases hv0 : rowValid x y (j - (k + 1)) = true <;>
    by_cases hv1 : rowValid x y j = true <;>
    simp [hv0, hv1] <;> omega


/-- With every operand `1 × 1`, all of the Woodbury step's shape
asserts conform and the step returns `1 × 1` matrices. -/
theorem woodbury_step_ok (inverse weights new_x new_y : Mat) (c : F64)
    (h1 : inverse.nrows = 1) (h2 : inverse.ncols = 1)
    (h3 : weights.nrows = 1) (h4 : weights.ncols = 1)
    (h5 : new_x.nrows = 1) (h6 : new_x.ncols = 1)
    (h7 : new_y.nrows = 1) (h8 : new_y.ncols = 1) :
    ∃ p, woodbury_step inverse weights new_x new_y c = some p
      ∧ p.1.nrows = 1 ∧ p.1.ncols = 1 ∧ p.2.nrows = 1 ∧ p.2.ncols = 1 := by
  simp only [woodbury_step, Mat.mul, Mat.transpose, Mat.sub, Mat.of_nrows, Mat.of_ncols,
    h1, h2, h3, h4, h5, h6, h7, h8]
  exact ⟨_, rfl, rfl, rfl, rfl, rfl⟩

/-- `update_unchecked` on a no-bias model with all-`1 × 1` shapes
succeeds and preserves those shapes. -/
theorem update_unchecked_ok (s : OnlineLR) (new_x new_y : Mat) (c : F64)
    (hfb : s.fit_bias = false) (hir : s.inv.nrows = 1) (hic : s.inv.ncols = 1)
    (hcr : s.coefficients.nrows = 1) (hcc : s.coefficients.ncols = 1)
    (hxr : new_x.nrows = 1) (hxc : new_x.ncols = 1)
    (hyr : new_y.nrows = 1) (hyc : new_y.ncols = 1) :
    ∃ s1, s.update_unchecked new_x new_y c = some s1
      ∧ s1.fit_bias = false ∧ s1.inv.nrows = 1 ∧ s1.inv.ncols = 1
      ∧ s1.coefficients.nrows = 1 ∧ s1.coefficients.ncols = 1 := by
  obtain ⟨p, hp, hp1, hp2, hp3, hp4⟩ := woodbury_step_ok s.inv s.coefficients new_x new_y c
    hir hic hcr hcc hxr hxc hyr hyc
  refine ⟨{ s with inv := p.1, coefficients := p.2 }, ?_, hfb, hp1, hp2, hp3, hp4⟩
  simp only [OnlineLR.update_unchecked, hfb, Bool.false_eq_true, if_false]
  rw [hp]
  rfl

/-- The NaN-checked `update` on a no-bias model with all-`1 × 1` shapes
succeeds (skipping or updating) and preserves those shapes. -/
theorem update_ok (s : OnlineLR) (new_x new_y : Mat) (c : F64)
    (hfb : s.fit_bias = false) (hir : s.inv.nrows = 1) (hic : s.inv.ncols = 1)
    (hcr : s.coefficients.nrows = 1) (hcc : s.coefficients.ncols = 1)
    (hxr : new_x.nrows = 1) (hxc : new_x.ncols = 1)
    (hyr : new_y.nrows = 1) (hyc : new_y.ncols = 1) :
    ∃ s1, s.update new_x new_y c = some s1
      ∧ s1.fit_bias = false ∧ s1.inv.nrows = 1 ∧ s1.inv.ncols = 1
      ∧ s1.coefficients.nrows = 1 ∧ s1.coefficients.ncols = 1 := by
  cases hnn : (new_x.hasNan || new_y.hasNan) with
  | true =>
      refine ⟨s, ?_, hfb, hir, hic, hcr, hcc⟩
      simp [OnlineLR.update, hnn]
  | false =>
      obtain ⟨s1, hs1, h1, h2, h3, h4, h5⟩ := update_unchecked_ok s new_x new_y c
        hfb hir hic hcr hcc hxr hxc hyr hyc
      refine ⟨s1, ?_, h1, h2, h3, h4, h5⟩
      rw [show s.update new_x new_y c = s.update_unchecked new_x new_y c by
        simp [OnlineLR.update, hnn]]
      exact hs1

/-- On a single-column design with a single-column target, the
growing-window per-row loop never panics and emits one snapshot per
index. -/
theorem recursiveSteps_ok (x y : Mat) (hxc : x.ncols = 1) (hyc : y.ncols = 1) :
    ∀ (idxs : List ℕ) (s : OnlineLR),
      s.fit_bias = false → s.inv.nrows = 1 → s.inv.ncols = 1 →
      s.coefficients.nrows = 1 → s.coefficients.ncols = 1 →
      ∃ l, recursiveSteps x y idxs s = some l ∧ l.length = idxs.length := by
  intro idxs
  induction idxs with
  | nil => exact fun s _ _ _ _ _ => ⟨[], rfl, rfl⟩
  | cons j rest ih =>
      intro s hfb hir hic hcr hcc
      obtain ⟨s1, hs1, h1, h2, h3, h4, h5⟩ := update_ok s (x.row j) (y.row j) (.fin 1)
        hfb hir hic hcr hcc rfl (show x.ncols = 1 from hxc) rfl (show y.ncols = 1 from hyc)
      obtain ⟨l, hl, hlen⟩ := ih s1 h1 h2 h3 h4 h5
      refine ⟨s1.coefficients :: l, ?_, by simp [hlen]⟩
      show ((s.update (x.row j) (y.row j) (.fin 1)).bind fun s1 =>
        (recursiveSteps x y rest s1).map fun l => s1.coefficients :: l) = _
      rw [hs1, Option.some_bind, hl]
      rfl

/-- On a single-column design with a single-column target, the
fixed-window per-row loop never panics and emits one snapshot per
index. -/
theorem rollingSteps_ok (x y : Mat) (n : ℕ) (hxc : x.ncols = 1) (hyc : y.ncols = 1) :
    ∀ (idxs : List ℕ) (s : OnlineLR),
      s.fit_bias = false → s.inv.nrows = 1 → s.inv.ncols = 1 →
      s.coefficients.nrows = 1 → s.coefficients.ncols = 1 →
      ∃ l, rollingSteps x y n idxs s = some l ∧ l.length = idxs.length := by
  intro idxs
  induction idxs with
  | nil => exact fun s _ _ _ _ _ => ⟨[], rfl, rfl⟩
  | cons j rest ih =>
      intro s hfb hir hic hcr hcc
      obtain ⟨s1, hs1, h1, h2, h3, h4, h5⟩ := update_ok s (x.row (j - n)) (y.row (j - n))
        (.fin (-1)) hfb hir hic hcr hcc rfl (show x.ncols = 1 from hxc) rfl
        (show y.ncols = 1 from hyc)
      obtain ⟨s2, hs2, g1, g2, g3, g4, g5⟩ := update_ok s1 (x.row j) (y.row j) (.fin 1)
        h1 h2 h3 h4 h5 rfl (show x.ncols = 1 from hxc) rfl (show y.ncols = 1 from hyc)
      obtain ⟨l, hl, hlen⟩ := ih s2 g1 g2 g3 g4 g5
      refine ⟨s2.coefficients :: l, ?_, by simp [hlen]⟩
      show ((s.update (x.row (j - n)) (y.row (j - n)) (.fin (-1))).bind fun s1 =>
        (s1.update (x.row j) (y.row j) (.fin 1)).bind fun s2 =>
          (rollingSteps x y n rest s2).map fun l => s2.coefficients :: l) = _
      rw [hs1, Option.some_bind, hs2, Option.some_bind, hl]
      rfl

/-- The shape of a fresh no-bias online fit, given faer's solve- and
inverse-shape contracts. -/
theorem fit_unchecked_no_bias_shape (env : FaerEnv) (x0 y0 : Mat) (lam : F64)
    (henv : ∀ A B : Mat, (env.qrSolve A B).nrows = A.ncols ∧ (env.qrSolve A B).ncols = B.ncols)
    (henvI : ∀ A : Mat, (env.qrInverse A).nrows = A.ncols ∧ (env.qrInverse A).ncols = A.ncols) :
    (OnlineLR.fit_unchecked env (OnlineLR.new lam false) x0 y0).coefficients.nrows = x0.ncols
    ∧ (OnlineLR.fit_unchecked env (OnlineLR.new lam false) x0 y0).coefficients.ncols = y0.ncols
    ∧ (OnlineLR.fit_unchecked env (OnlineLR.new lam false) x0 y0).fit_bias = false
    ∧ (OnlineLR.fit_unchecked env (OnlineLR.new lam false) x0 y0).inv.nrows = x0.ncols
    ∧ (OnlineLR.fit_unchecked env (OnlineLR.new lam false) x0 y0).inv.ncols = x0.ncols := by
  refine ⟨?_, ?_, rfl, ?_, ?_⟩
  · calc (OnlineLR.fit_unchecked env (OnlineLR.new lam false) x0 y0).coefficients.nrows
        = (env.qrSolve (invXtX x0 lam true) ((x0.transpose).mul y0)).nrows := rfl
      _ = (invXtX x0 lam true).ncols := (henv _ _).1
      _ = x0.ncols := by simp only [invXtX]; split <;> rfl
  · calc (OnlineLR.fit_unchecked env (OnlineLR.new lam false) x0 y0).coefficients.ncols
        = (env.qrSolve (invXtX x0 lam true) ((x0.transpose).mul y0)).ncols := rfl
      _ = ((x0.transpose).mul y0).ncols := (henv _ _).2
      _ = y0.ncols := rfl
  · calc (OnlineLR.fit_unchecked env (OnlineLR.new lam false) x0 y0).inv.nrows
        = (env.qrInverse (invXtX x0 lam true)).nrows := rfl
      _ = (invXtX x0 lam true).ncols := (henvI _).1
      _ = x0.ncols := by simp only [invXtX]; split <;> rfl
  · calc (OnlineLR.fit_unchecked env (OnlineLR.new lam false) x0 y0).inv.ncols
        = (env.qrInverse (invXtX x0 lam true)).ncols := rfl
      _ = (invXtX x0 lam true).ncols := (henvI _).2
      _ = x0.ncols := by simp only [invXtX]; split <;> rfl

/-- One unfolding step of the bootstrap loop. -/
theorem skipInit_step (env : FaerEnv) (x y : Mat) (n m : ℕ) (lam : F64) (fuel left : ℕ) :
    skipInit env x y n m lam (fuel + 1) left =
      if left + n ≤ x.nrows then
        if m ≤ validCount x y left n then
          ([(OnlineLR.fit_unchecked env (OnlineLR.new lam false)
              (Mat.of (validCount x y left n) x.ncols
                fun i j => x.entry ((windowValid x y left n).getD i 0) j)
              (Mat.of (validCount x y left n) 1
                fun i _ => y.entry ((windowValid x y left n).getD i 0) 0)).coefficients],
           some (OnlineLR.fit_unchecked env (OnlineLR.new lam false)
              (Mat.of (validCount x y left n) x.ncols
                fun i j => x.entry ((windowValid x y left n).getD i 0) j)
              (Mat.of (validCount x y left n) 1
                fun i _ => y.entry ((windowValid x y left n).getD i 0) 0),
             validCount x y left n, left + n))
        else
          (Mat.empty :: (skipInit env x y n m lam fuel (left + 1)).1,
           (skipInit env x y n m lam fuel (left + 1)).2)
      else ([], none) := rfl

/-- The bootstrap loop of `faer_rolling_skipping_lstsq`: with enough
fuel it either scans off the end (every remaining window has fewer
than `m` valid rows, one `0 × 0` placeholder per window, no model), or
stops at the first window `b` with at least `m` valid rows, emitting
placeholders before position `b - left` and the freshly fitted
`x.ncols × 1` coefficients there, handing the model (with its
`x.ncols × x.ncols` inverse), its exact valid count and the boundary
`b + n` to the main loop. -/
theorem skipInit_spec (env : FaerEnv) (x y : Mat) (n m : ℕ) (lam : F64)
    (henv : ∀ A B : Mat, (env.qrSolve A B).nrows = A.ncols ∧ (env.qrSolve A B).ncols = B.ncols)
    (henvI : ∀ A : Mat, (env.qrInverse A).nrows = A.ncols ∧ (env.qrInverse A).ncols = A.ncols) :
    ∀ (fuel left : ℕ), x.nrows + 1 ≤ fuel + (left + n) →
      ((∀ j, left ≤ j → j + n ≤ x.nrows → validCount x y j n < m)
        ∧ (skipInit env x y n m lam fuel left).1.length = x.nrows + 1 - (left + n)
        ∧ (∀ i, (skipInit env x y n m lam fuel left).1.getD i Mat.empty = Mat.empty)
        ∧ (skipInit env x y n m lam fuel left).2 = none)
      ∨ (∃ b lr, left ≤ b ∧ b + n ≤ x.nrows
          ∧ (∀ j, left ≤ j → j < b → validCount x y j n < m)
          ∧ m ≤ validCount x y b n
          ∧ (skipInit env x y n m lam fuel left).1.length = b - left + 1
          ∧ (∀ i, i < b - left →
              (skipInit env x y n m lam fuel left).1.getD i Mat.empty = Mat.empty)
          ∧ (skipInit env x y n m lam fuel left).2 = some (lr, validCount x y b n, b + n)
          ∧ (skipInit env x y n m lam fuel left).1.getD (b - left) Mat.empty = lr.coefficients
          ∧ lr.fit_bias = false
          ∧ lr.coefficients.nrows = x.ncols
          ∧ lr.coefficients.ncols = 1
          ∧ lr.inv.nrows = x.ncols
          ∧ lr.inv.ncols = x.ncols) := by
  intro fuel
  induction fuel with
  | zero =>
      intro left hfb
      left
      refine ⟨fun j hj hjn => absurd hjn (by omega), ?_, ?_, rfl⟩
      · show (0:ℕ) = x.nrows + 1 - (left + n)
        omega
      · intro i
        show ([] : List Mat).getD i Mat.empty = Mat.empty
        simp [List.getD]
  | succ fuel ih =>
      intro left hfb
      by_cases hle : left + n ≤ x.nrows
      · by_cases hm : m ≤ validCount x y left n
        · have hpair : skipInit env x y n m lam (fuel + 1) left =
              ([(OnlineLR.fit_unchecked env (OnlineLR.new lam false)
                  (Mat.of (validCount x y left n) x.ncols
                    fun i j => x.entry ((windowValid x y left n).getD i 0) j)
                  (Mat.of (validCount x y left n) 1
                    fun i _ => y.entry ((windowValid x y left n).getD i 0) 0)).coefficients],
               some (OnlineLR.fit_unchecked env (OnlineLR.new lam false)
                  (Mat.of (validCount x y left n) x.ncols
                    fun i j => x.entry ((windowValid x y left n).getD i 0) j)
                  (Mat.of (validCount x y left n) 1
                    fun i _ => y.entry ((windowValid x y left n).getD i 0) 0),
                 validCount x y left n, left + n)) := by
            rw [skipInit_step, if_pos hle, if_pos hm]
          obtain ⟨s1, s2, s3, s4, s5⟩ := fit_unchecked_no_bias_shape env
            (Mat.of (validCount x y left n) x.ncols
              fun i j => x.entry ((windowValid x y left n).getD i 0) j)
            (Mat.of (validCount x y left n) 1
              fun i _ => y.entry ((windowValid x y left n).getD i 0) 0) lam henv henvI
          right
          refine ⟨left,
            OnlineLR.fit_unchecked env (OnlineLR.new lam false)
              (Mat.of (validCount x y left n) x.ncols
                fun i j => x.entry ((windowValid x y left n).getD i 0) j)
              (Mat.of (validCount x y left n) 1
                fun i _ => y.entry ((windowValid x y left n).getD i 0) 0),
            le_refl left, hle, fun j hj hjb => absurd hjb (by omega), hm,
            ?_, fun i hi => absurd hi (by omega), ?_, ?_, s3, s1, s2, s4, s5⟩
          · rw [hpair]
            show (1:ℕ) = left - left + 1
            omega
          · rw [hpair]
          · rw [hpair, Nat.sub_self]
            rfl
        · have hpair : skipInit env x y n m lam (fuel + 1) left =
                (Mat.empty :: (skipInit env x y n m lam fuel (left + 1)).1,
                 (skipInit env x y n m lam fuel (left + 1)).2) := by
              rw [skipInit_step, if_pos hle, if_neg hm]
          have hmlt : validCount x y left n < m := by omega
          rcases ih (left + 1) (by omega) with
            ⟨hA1, hA2, hA3, hA4⟩ |
            ⟨b, lr, hb1, hb2, hb3, hb4, hb5, hb6, hb7, hb8, hb9, hb10, hb11, hb12, hb13⟩
          · left
            refine ⟨?_, ?_, ?_, ?_⟩
            · intro j hj hjn
              rcases Nat.eq_or_lt_of_le hj with hj' | hj'
              · rw [← hj']
                exact hmlt
              · exact hA1 j hj' hjn
            · rw [hpair]
              show (skipInit env x y n m lam fuel (left + 1)).1.length + 1 = _
              rw [hA2]
              omega
            · intro i
              rw [hpair]
              cases i with
              | zero => rfl
              | succ i =>
                  show (skipInit env x y n m lam fuel (left + 1)).1.getD i Mat.empty = Mat.empty
                  exact hA3 i
            · rw [hpair]
              exact hA4
          · right
            refine ⟨b, lr, by omega, hb2, ?_, hb4, ?_, ?_, ?_, ?_, hb9, hb10, hb11, hb12, hb13⟩
            · intro j hj hjb
              rcases Nat.eq_or_lt_of_le hj with hj' | hj'
              · rw [← hj']
                exact hmlt
              · exact hb3 j hj' hjb
            · rw [hpair]
              show (skipInit env x y n m lam fuel (left + 1)).1.length + 1 = _
              rw [hb5]
              omega
            · intro i hi
              rw [hpair]
              cases i with
              | zero => rfl
              | succ i =>
                  show (skipInit env x y n m lam fuel (left + 1)).1.getD i Mat.empty = Mat.empty
                  exact hb6 i (by omega)
            · rw [hpair]
              exact hb7
            · rw [hpair]
              have hbl : b - left = (b - (left + 1)) + 1 := by omega
              rw [hbl]
              show (skipInit env x y n m lam fuel (left + 1)).1.getD (b - (left + 1)) Mat.empty = _
              exact hb8
      · left
        have hpair : skipInit env x y n m lam (fuel + 1) left = ([], none) := by
          rw [skipInit_step, if_neg hle]
        refine ⟨fun j hj hjn => absurd hjn (by omega), ?_, ?_, ?_⟩
        · rw [hpair]
          show (0:ℕ) = x.nrows + 1 - (left + n)
          omega
        · intro i
          rw [hpair]
          simp [List.getD]
        · rw [hpair]

/-- One unfolding step of the post-bootstrap loop, under the outcomes
of its two conditional updates. -/
theorem skipSteps_cons_eq (env : FaerEnv) (x y : Mat) (n m j : ℕ) (rest : List ℕ)
    (s : OnlineLR) (cnt : ℕ) (S1 : OnlineLR) (C1 : ℕ) (S2 : OnlineLR) (C2 : ℕ)
    (h1 : (if rowValid x y (j - n) then
        (OnlineLR.update_unchecked s (x.row (j - n)) (y.row (j - n)) (.fin (-1))).map
          (fun s1 => (s1, cnt - 1))
      else some (s, cnt)) = some (S1, C1))
    (h2 : (if rowValid x y j then
        (OnlineLR.update_unchecked S1 (x.row j) (y.row j) (.fin 1)).map
          (fun s2 => (s2, C1 + 1))
      else some (S1, C1)) = some (S2, C2)) :
    skipSteps env x y n m (j :: rest) s cnt =
      (skipSteps env x y n m rest S2 C2).map fun l =>
        (if m ≤ C2 then S2.coefficients else Mat.empty) :: l := by
  rw [skipSteps, h1]
  show (if rowValid x y j then
      (OnlineLR.update_unchecked S1 (x.row j) (y.row j) (.fin 1)).map
        (fun s2 => (s2, C1 + 1))
    else some (S1, C1)).bind (fun p2 =>
      (skipSteps env x y n m rest p2.1 p2.2).map fun l =>
        (if m ≤ p2.2 then (p2.1).coefficients else Mat.empty) :: l) = _
  rw [h2]
  rfl

/-- On a single-column design with a single-column target, the
post-bootstrap loop never panics, emits one snapshot per processed
row — a `0 × 0` placeholder exactly when the (exactly tracked) valid
count of the current window is below `m`, an `x.ncols × 1` coefficient
matrix otherwise. -/
theorem skipSteps_spec (env : FaerEnv) (x y : Mat) (n m : ℕ)
    (hxc : x.ncols = 1) (hyc : y.ncols = 1) (hn1 : 1 ≤ n) :
    ∀ (len r : ℕ) (s : OnlineLR) (cnt : ℕ),
      n ≤ r →
      cnt = validCount x y (r - n) n →
      s.fit_bias = false → s.inv.nrows = 1 → s.inv.ncols = 1 →
      s.coefficients.nrows = 1 → s.coefficients.ncols = 1 →
      ∃ l, skipSteps env x y n m (List.range' r len) s cnt = some l
        ∧ l.length = len
        ∧ ∀ i, i < len →
            ((validCount x y (r + i + 1 - n) n < m → l.getD i Mat.empty = Mat.empty)
            ∧ (m ≤ validCount x y (r + i + 1 - n) n →
                (l.getD i Mat.empty).nrows = x.ncols ∧ (l.getD i Mat.empty).ncols = 1)) := by
  intro len
  induction len with
  | zero =>
      intro r s cnt _ _ _ _ _ _ _
      exact ⟨[], rfl, rfl, fun i hi => absurd hi (by omega)⟩
  | succ len ih =>
      intro r s cnt hnr hcnt hfb hir hic hcr hcc
      have hslide := validCount_slide x y n r hn1 hnr
      have hpos : rowValid x y (r - n) = true → 1 ≤ cnt := by
        intro hv
        rw [hcnt]
        exact validCount_pos_of_head x y (r - n) n hn1 hv
      rw [range'_cons]
      by_cases hv0 : rowValid x y (r - n) = true
      · obtain ⟨s1, hs1, a1, a2, a3, a4, a5⟩ := update_unchecked_ok s (x.row (r - n))
          (y.row (r - n)) (.fin (-1)) hfb hir hic hcr hcc rfl
          (show x.ncols = 1 from hxc) rfl (show y.ncols = 1 from hyc)
        have hO1 : (if rowValid x y (r - n) then
            (OnlineLR.update_unchecked s (x.row (r - n)) (y.row (r - n)) (.fin (-1))).map
              (fun s1 => (s1, cnt - 1))
          else some (s, cnt)) = some (s1, cnt - 1) := by
          rw [if_pos hv0, hs1]
          rfl
        by_cases hv1 : rowValid x y r = true
        · obtain ⟨s2, hs2, b1, b2, b3, b4, b5⟩ := update_unchecked_ok s1 (x.row r) (y.row r)
            (.fin 1) a1 a2 a3 a4 a5 rfl (show x.ncols = 1 from hxc) rfl
            (show y.ncols = 1 from hyc)
          have hO2 : (if rowValid x y r then
              (OnlineLR.update_unchecked s1 (x.row r) (y.row r) (.fin 1)).map
                (fun s2 => (s2, cnt - 1 + 1))
            else some (s1, cnt - 1)) = some (s2, cnt - 1 + 1) := by
            rw [if_pos hv1, hs2]
            rfl
          have hstep := skipSteps_cons_eq env x y n m r (List.range' (r + 1) len) s cnt
            s1 (cnt - 1) s2 (cnt - 1 + 1) hO1 hO2
          have hcnt2 : cnt - 1 + 1 = validCount x y (r + 1 - n) n := by
            have hr1 : r + 1 - n = r - n + 1 := by omega
            rw [hr1, hslide, ← hcnt]
            simp [hv0, hv1]
          obtain ⟨l, hl, hlen, hpat⟩ := ih (r + 1) s2 (cnt - 1 + 1) (by omega) hcnt2
            b1 b2 b3 b4 b5
          refine ⟨(if m ≤ cnt - 1 + 1 then s2.coefficients else Mat.empty) :: l, ?_, ?_, ?_⟩
          · rw [hstep, hl]
            rfl
          · simp [hlen]
          · intro i hi
            cases i with
            | zero =>
                simp only [Nat.add_zero]
                constructor
                · intro hlt
                  show (if m ≤ cnt - 1 + 1 then s2.coefficients else Mat.empty) = Mat.empty
                  rw [if_neg (by omega)]
                · intro hge
                  show (if m ≤ cnt - 1 + 1 then s2.coefficients else Mat.empty).nrows = x.ncols
                    ∧ (if m ≤ cnt - 1 + 1 then s2.coefficients else Mat.empty).ncols = 1
                  rw [if_pos (by omega)]
                  exact ⟨b4.trans hxc.symm, b5⟩
            | succ i =>
                have h2 := hpat i (by omega)
                have hidx : r + 1 + i + 1 - n = r + (i + 1) + 1 - n := by omega
                rw [hidx] at h2
                exact h2
        · have hO2 : (if rowValid x y r then
              (OnlineLR.update_unchecked s1 (x.row r) (y.row r) (.fin 1)).map
                (fun s2 => (s2, cnt - 1 + 1))
            else some (s1, cnt - 1)) = some (s1, cnt - 1) := by
            rw [if_neg hv1]
          have hstep := skipSteps_cons_eq env x y n m r (List.range' (r + 1) len) s cnt
            s1 (cnt - 1) s1 (cnt - 1) hO1 hO2
          have hcnt2 : cnt - 1 = validCount x y (r + 1 - n) n := by
            have hr1 : r + 1 - n = r - n + 1 := by omega
            rw [hr1, hslide, ← hcnt]
            simp [hv0, hv1]
          obtain ⟨l, hl, hlen, hpat⟩ := ih (r + 1) s1 (cnt - 1) (by omega) hcnt2
            a1 a2 a3 a4 a5
          refine ⟨(if m ≤ cnt - 1 then s1.coefficients else Mat.empty) :: l, ?_, ?_, ?_⟩
          · rw [hstep, hl]
            rfl
          · simp [hlen]
          · intro i hi
            cases i with
            | zero =>
                simp only [Nat.add_zero]
                constructor
                · intro hlt
                  show (if m ≤ cnt - 1 then s1.coefficients else Mat.empty) = Mat.empty
                  rw [if_neg (by omega)]
                · intro hge
                  show (if m ≤ cnt - 1 then s1.coefficients else Mat.empty).nrows = x.ncols
                    ∧ (if m ≤ cnt - 1 then s1.coefficients else Mat.empty).ncols = 1
                  rw [if_pos (by omega)]
                  exact ⟨a4.trans hxc.symm, a5⟩
            | succ i =>
                have h2 := hpat i (by omega)
                have hidx : r + 1 + i + 1 - n = r + (i + 1) + 1 - n := by omega
                rw [hidx] at h2
                exact h2
      · have hO1 : (if rowValid x y (r - n) then
            (OnlineLR.update_unchecked s (x.row (r - n)) (y.row (r - n)) (.fin (-1))).map
              (fun s1 => (s1, cnt - 1))
          else some (s, cnt)) = some (s, cnt) := by
          rw [if_neg hv0]
        by_cases hv1 : rowValid x y r = true
        · obtain ⟨s2, hs2, b1, b2, b3, b4, b5⟩ := update_unchecked_ok s (x.row r) (y.row r)
            (.fin 1) hfb hir hic hcr hcc rfl (show x.ncols = 1 from hxc) rfl
            (show y.ncols = 1 from hyc)
          have hO2 : (if rowValid x y r then
              (OnlineLR.update_unchecked s (x.row r) (y.row r) (.fin 1)).map
                (fun s2 => (s2, cnt + 1))
            else some (s, cnt)) = some (s2, cnt + 1) := by
            rw [if_pos hv1, hs2]
            rfl
          have hstep := skipSteps_cons_eq env x y n m r (List.range' (r + 1) len) s cnt
            s (cnt) s2 (cnt + 1) hO1 hO2
          have hcnt2 : cnt + 1 = validCount x y (r + 1 - n) n := by
            have hr1 : r + 1 - n = r - n + 1 := by omega
            rw [hr1, hslide, ← hcnt]
            simp [hv0, hv1]
          obtain ⟨l, hl, hlen, hpat⟩ := ih (r + 1) s2 (cnt + 1) (by omega) hcnt2
            b1 b2 b3 b4 b5
          refine ⟨(if m ≤ cnt + 1 then s2.coefficients else Mat.empty) :: l, ?_, ?_, ?_⟩
          · rw [hstep, hl]
            rfl
          · simp [hlen]
          · intro i hi
            cases i with
            | zero =>
                simp only [Nat.add_zero]
                constructor
                · intro hlt
                  show (if m ≤ cnt + 1 then s2.coefficients else Mat.empty) = Mat.empty
                  rw [if_neg (by omega)]
                · intro hge
                  show (if m ≤ cnt + 1 then s2.coefficients else Mat.empty).nrows = x.ncols
                    ∧ (if m ≤ cnt + 1 then s2.coefficients else Mat.empty).ncols = 1
                  rw [if_pos (by omega)]
                  exact ⟨b4.trans hxc.symm, b5⟩
            | succ i =>
                have h2 := hpat i (by omega)
                have hidx : r + 1 + i + 1 - n = r + (i + 1) + 1 - n := by omega
                rw [hidx] at h2
                exact h2
        · have hO2 : (if rowValid x y r then
              (OnlineLR.update_unchecked s (x.row r) (y.row r) (.fin 1)).map
                (fun s2 => (s2, cnt + 1))
            else some (s, cnt)) = some (s, cnt) := by
            rw [if_neg hv1]
          have hstep := skipSteps_cons_eq env x y n m r (List.range' (r + 1) len) s cnt
            s (cnt) s (cnt) hO1 hO2
          have hcnt2 : cnt = validCount x y (r + 1 - n) n := by
            have hr1 : r + 1 - n = r - n + 1 := by omega
            rw [hr1, hslide, ← hcnt]
            simp [hv0, hv1]
          obtain ⟨l, hl, hlen, hpat⟩ := ih (r + 1) s cnt (by omega) hcnt2
            hfb hir hic hcr hcc
          refine ⟨(if m ≤ cnt then s.coefficients else Mat.empty) :: l, ?_, ?_, ?_⟩
          · rw [hstep, hl]
            rfl
          · simp [hlen]
          · intro i hi
            cases i with
            | zero =>
                simp only [Nat.add_zero]
                constructor
                · intro hlt
                  show (if m ≤ cnt then s.coefficients else Mat.empty) = Mat.empty
                  rw [if_neg (by omega)]
                · intro hge
                  show (if m ≤ cnt then s.coefficients else Mat.empty).nrows = x.ncols
                    ∧ (if m ≤ cnt then s.coefficients else Mat.empty).ncols = 1
                  rw [if_pos (by omega)]
                  exact ⟨hcr.trans hxc.symm, hcc⟩
            | succ i =>
                have h2 := hpat i (by omega)
                have hidx : r + 1 + i + 1 - n = r + (i + 1) + 1 - n := by omega
                rw [hidx] at h2
                exact h2

/-- When the bootstrap loop scans off the end, the skipping driver
returns just its placeholders (no post-bootstrap update ever runs). -/
theorem skipping_eq_none (env : FaerEnv) (x y : Mat) (n m : ℕ) (lam : F64)
    (h : (skipInit env x y n m lam (x.nrows + 2) 0).2 = none) :
    faer_rolling_skipping_lstsq env x y n m lam =
      some (skipInit env x y n m lam (x.nrows + 2) 0).1 := by
  simp only [faer_rolling_skipping_lstsq]
  rw [h]

/-- When the bootstrap loop stops with a fitted model, the skipping
driver appends the main loop's snapshots (if any rows remain). -/
theorem skipping_eq_some (env : FaerEnv) (x y : Mat) (n m : ℕ) (lam : F64)
    (lr : OnlineLR) (cnt right : ℕ)
    (h : (skipInit env x y n m lam (x.nrows + 2) 0).2 = some (lr, cnt, right)) :
    faer_rolling_skipping_lstsq env x y n m lam =
      if x.nrows ≤ right then some (skipInit env x y n m lam (x.nrows + 2) 0).1
      else (skipSteps env x y n m (List.range' right (x.nrows - right)) lr cnt).map
        fun l => (skipInit env x y n m lam (x.nrows + 2) 0).1 ++ l := by
  simp only [faer_rolling_skipping_lstsq]
  rw [h]

/-- With two or more feature columns, the growing-window loop panics on
its first NaN-free row: the Woodbury weights matmul is ill-shaped. -/
theorem recursiveSteps_abort (x y : Mat) (n : ℕ) (rest : List ℕ) (s : OnlineLR)
    (hfb : s.fit_bias = false) (hw : 2 ≤ s.coefficients.nrows)
    (hv : rowValid x y n = true) :
    recursiveSteps x y (n :: rest) s = none := by
  have hnn : ((x.row n).hasNan || (y.row n).hasNan) = false := by
    simpa [rowValid] using hv
  have habort : s.update (x.row n) (y.row n) (.fin 1) = none := by
    rw [show s.update (x.row n) (y.row n) (.fin 1)
        = s.update_unchecked (x.row n) (y.row n) (.fin 1) from by simp [OnlineLR.update, hnn]]
    refine update_unchecked_shape_abort s _ _ _ rfl ?_
    rw [hfb]
    show 2 ≤ s.coefficients.nrows + 0
    omega
  rw [recursiveSteps, habort]
  rfl

/-- **C10.** (code-bug evidence) On single-column data each of the
three windowed drivers — recursive growing-window, rolling
fixed-window, and rolling with null-skipping and minimum valid count
`m` — returns exactly `xn − n + 1` snapshots, the null-skipping
variant's snapshot at window position `k` being the `0 × 0`
placeholder exactly when window `k` holds fewer than `m` valid rows
and an `x.ncols × 1` coefficient matrix otherwise; but the claimed
snapshot count is NOT delivered for every `X`: with two or more
feature columns, the first NaN-free update row makes the run panic
inside the Woodbury step's ill-shaped weights matmul, and nothing is
returned. -/
theorem windowed_driver_snapshots (env : FaerEnv) (x y : Mat) (n m : ℕ) (lam : F64)
    (henv : ∀ A B : Mat, (env.qrSolve A B).nrows = A.ncols ∧ (env.qrSolve A B).ncols = B.ncols)
    (henvI : ∀ A : Mat, (env.qrInverse A).nrows = A.ncols ∧ (env.qrInverse A).ncols = A.ncols) :
    (1 ≤ n → n ≤ x.nrows → x.ncols = 1 → y.ncols = 1 →
      (∃ l, faer_recursive_lstsq env x y n lam = some l ∧ l.length = x.nrows - n + 1)
      ∧ (∃ l, faer_rolling_lstsq env x y n lam = some l ∧ l.length = x.nrows - n + 1)
      ∧ (∃ l, faer_rolling_skipping_lstsq env x y n m lam = some l
          ∧ l.length = x.nrows - n + 1
          ∧ ∀ k, k ≤ x.nrows - n →
              (validCount x y k n < m → l.getD k Mat.empty = Mat.empty)
              ∧ (m ≤ validCount x y k n →
                  (l.getD k Mat.empty).nrows = x.ncols ∧ (l.getD k Mat.empty).ncols = 1)))
    ∧ (2 ≤ x.ncols → n < x.nrows → rowValid x y n = true →
        faer_recursive_lstsq env x y n lam = none) := by
  constructor
  · intro hn1 hn hxc hyc
    obtain ⟨f1, f2, f3, f4, f5⟩ :=
      fit_unchecked_no_bias_shape env (x.topRows n) (y.topRows n) lam henv henvI
    refine ⟨?_, ?_, ?_⟩
    · obtain ⟨l1, hl1, hlen1⟩ := recursiveSteps_ok x y hxc hyc
        (List.range' n (x.nrows - n))
        (OnlineLR.fit_unchecked env (OnlineLR.new lam false) (x.topRows n) (y.topRows n))
        f3 (f4.trans (show (x.topRows n).ncols = 1 from hxc))
        (f5.trans (show (x.topRows n).ncols = 1 from hxc))
        (f1.trans (show (x.topRows n).ncols = 1 from hxc))
        (f2.trans (show (y.topRows n).ncols = 1 from hyc))
      refine ⟨(OnlineLR.fit_unchecked env (OnlineLR.new lam false) (x.topRows n)
        (y.topRows n)).coefficients :: l1, ?_, ?_⟩
      · show (recursiveSteps x y (List.range' n (x.nrows - n))
            (OnlineLR.fit_unchecked env (OnlineLR.new lam false) (x.topRows n)
              (y.topRows n))).map _ = _
        rw [hl1]
        rfl
      · show l1.length + 1 = _
        rw [hlen1, List.length_range']
    · obtain ⟨l1, hl1, hlen1⟩ := rollingSteps_ok x y n hxc hyc
        (List.range' n (x.nrows - n))
        (OnlineLR.fit_unchecked env (OnlineLR.new lam false) (x.topRows n) (y.topRows n))
        f3 (f4.trans (show (x.topRows n).ncols = 1 from hxc))
        (f5.trans (show (x.topRows n).ncols = 1 from hxc))
        (f1.trans (show (x.topRows n).ncols = 1 from hxc))
        (f2.trans (show (y.topRows n).ncols = 1 from hyc))
      refine ⟨(OnlineLR.fit_unchecked env (OnlineLR.new lam false) (x.topRows n)
        (y.topRows n)).coefficients :: l1, ?_, ?_⟩
      · show (rollingSteps x y n (List.range' n (x.nrows - n))
            (OnlineLR.fit_unchecked env (OnlineLR.new lam false) (x.topRows n)
              (y.topRows n))).map _ = _
        rw [hl1]
        rfl
      · show l1.length + 1 = _
        rw [hlen1, List.length_range']
    · rcases skipInit_spec env x y n m lam henv henvI (x.nrows + 2) 0 (by omega) with
        ⟨hA1, hA2, hA3, hA4⟩ |
        ⟨b, lr, hb1, hb2, hb3, hb4, hb5, hb6, hb7, hb8, hb9, hb10, hb11, hb12, hb13⟩
      · have hres := skipping_eq_none env x y n m lam hA4
        refine ⟨(skipInit env x y n m lam (x.nrows + 2) 0).1, hres, ?_, ?_⟩
        · rw [hA2]
          omega
        · intro k hk
          constructor
          · intro _
            exact hA3 k
          · intro hge
            have := hA1 k (Nat.zero_le k) (by omega)
            exact absurd hge (by omega)
      · have hres := skipping_eq_some env x y n m lam lr (validCount x y b n) (b + n) hb7
        rw [Nat.sub_zero] at hb5 hb6 hb8
        by_cases hxb : x.nrows ≤ b + n
        · rw [if_pos hxb] at hres
          refine ⟨(skipInit env x y n m lam (x.nrows + 2) 0).1, hres, ?_, ?_⟩
          · rw [hb5]
            omega
          · intro k hk
            rcases Nat.lt_or_ge k b with hkb | hkb
            · constructor
              · intro _
                exact hb6 k hkb
              · intro hge
                have := hb3 k (Nat.zero_le k) hkb
                exact absurd hge (by omega)
            · have hkb' : k = b := by omega
              subst hkb'
              constructor
              · intro hltc
                exact absurd hb4 (by omega)
              · intro _
                rw [hb8]
                exact ⟨hb10, hb11⟩
        · rw [if_neg hxb] at hres
          have hblt : b + n < x.nrows := by omega
          obtain ⟨lst, hlst, hsl, hsc⟩ := skipSteps_spec env x y n m hxc hyc hn1
            (x.nrows - (b + n)) (b + n) lr (validCount x y b n) (by omega)
            (by rw [Nat.add_sub_cancel]) hb9 (hb12.trans hxc) (hb13.trans hxc)
            (hb10.trans hxc) hb11
          have hfin : faer_rolling_skipping_lstsq env x y n m lam =
              some ((skipInit env x y n m lam (x.nrows + 2) 0).1 ++ lst) := by
            rw [hres, hlst]
            rfl
          refine ⟨(skipInit env x y n m lam (x.nrows + 2) 0).1 ++ lst, hfin, ?_, ?_⟩
          · rw [List.length_append, hb5, hsl]
            omega
          · intro k hk
            rcases Nat.lt_or_ge k b with hkb | hkb
            · constructor
              · intro _
                rw [List.getD_append _ _ _ _ (by rw [hb5]; omega)]
                exact hb6 k hkb
              · intro hge
                have := hb3 k (Nat.zero_le k) hkb
                exact absurd hge (by omega)
            · rcases Nat.eq_or_lt_of_le hkb with hkb' | hkb'
              · rw [← hkb']
                constructor
                · intro hltc
                  exact absurd hb4 (by omega)
                · intro _
                  rw [List.getD_append _ _ _ _ (by rw [hb5]; omega), hb8]
                  exact ⟨hb10, hb11⟩
              · have hfk : ((skipInit env x y n m lam (x.nrows + 2) 0).1 ++ lst).getD k
                    Mat.empty = lst.getD (k - (b + 1)) Mat.empty := by
                  rw [List.getD_append_right _ _ _ _ (by rw [hb5]; omega), hb5]
                have hik : k - (b + 1) < x.nrows - (b + n) := by omega
                have h2 := hsc (k - (b + 1)) hik
                have hidx : (b + n) + (k - (b + 1)) + 1 - n = k := by omega
                rw [hidx] at h2
                rw [hfk]
                exact h2
  · intro hc2 hnlt hv
    obtain ⟨f1, f2, f3, f4, f5⟩ :=
      fit_unchecked_no_bias_shape env (x.topRows n) (y.topRows n) lam henv henvI
    obtain ⟨k, hk⟩ : ∃ k, x.nrows - n = k + 1 := ⟨x.nrows - n - 1, by omega⟩
    have habort := recursiveSteps_abort x y n (List.range' (n + 1) k)
      (OnlineLR.fit_unchecked env (OnlineLR.new lam false) (x.topRows n) (y.topRows n))
      f3 (by rw [f1]; show 2 ≤ x.ncols; omega) hv
    show (recursiveSteps x y (List.range' n (x.nrows - n))
        (OnlineLR.fit_unchecked env (OnlineLR.new lam false) (x.topRows n)
          (y.topRows n))).map _ = none
    rw [hk, range'_cons, habort]
    rfl

/-- Witness for C10: on a concrete `3 × 1` design with window size 2
and minimum valid count 1 all three drivers succeed with `3 − 2 + 1 = 2`
snapshots, while on a `3 × 2` design the recursive driver panics and
returns nothing. -/
theorem windowed_driver_snapshots_witness :
    (∃ l, faer_recursive_lstsq envZero X31 X31 2 (.fin 0) = some l ∧ l.length = 2)
    ∧ faer_recursive_lstsq envZero X32 X31 2 (.fin 0) = none := by
  have h1 := windowed_driver_snapshots envZero X31 X31 2 1 (.fin 0)
    (fun A B => ⟨rfl, rfl⟩) (fun A => ⟨rfl, rfl⟩)
  have h2 := windowed_driver_snapshots envZero X32 X31 2 1 (.fin 0)
    (fun A B => ⟨rfl, rfl⟩) (fun A => ⟨rfl, rfl⟩)
  exact ⟨(h1.1 (by decide) (by decide) (by decide) (by decide)).1,
    h2.2 (by decide) (by decide) (by decide)⟩
